import Mathlib

/-!
Verification development for the podcast_history_converter repository.

The Rust sources are shallowly embedded as executable Lean definitions.
Conventions used throughout:
- Rust strings are modelled as lists of natural numbers, one element per
  UTF-8 byte (each below 256).  All string operations in the sources
  (length, byte slicing, radix parsing, formatting) act on bytes, so this
  embedding is exact for them.
- Machine integers are modelled as Nat or Int with explicit reductions
  modulo a power of two at the places where the source performs a cast
  or relies on wrapping.
- The relational store is modelled as an oracle of query outcomes: each
  SELECT is a function from its parameters to a result row or an error,
  with a missing row reported as the queryReturnedNoRows error, exactly
  as the wrappers get_track, get_feed, get_podcast and get_episode do.
- Fallible code returns Except.
-/

set_option maxRecDepth 4096

/-- Tri-state playback state of a track (podcast.rs, enum PlayingStatus). -/
inductive PlayingStatus
  | Unplayed
  | Playing
  | Played
deriving DecidableEq, Repr

/-- Relational-engine errors as far as the embedded code distinguishes
them: the zero-rows marker used by the wrappers versus any other engine
error. -/
inductive SqlErr
  | queryReturnedNoRows
  | other
deriving DecidableEq, Repr

/-- Error taxonomy of the program (main.rs enum Error) together with the
pass-through collaborator errors the embedded paths can produce: an
integer-parse failure boxed by the question-mark operator, a relational
error, a store-close failure, and a container or sink I/O failure.  The
panicked outcome models a Rust panic (a string slice at a non-boundary
byte position in UUID::from_str): the program installs no panic handler,
so a panic ends the run just as a propagated error does, but it is kept
distinct from every returned error value. -/
inductive Err
  | invalidUUID
  | invalidPlayingStatus
  | parseIntError
  | sqlError (e : SqlErr)
  | closeError
  | ioError
  | panicked
deriving DecidableEq, Repr

/-- One episode of a podcast (podcast.rs, struct Track).  The guid is
kept as its UTF-8 bytes because the backend hashes its bytes; the URL is
opaque to the embedded code and stays a Lean string. -/
structure Track where
  guid : List Nat
  url : String
  duration : Option Int := none
  progress : Int := 0
  playing_status : PlayingStatus := PlayingStatus.Unplayed
deriving DecidableEq, Repr

/-- A subscribed feed (podcast.rs, struct Podcast). -/
structure Podcast where
  url : String
  title : String
  tracks : List Track
deriving DecidableEq, Repr

deriving instance DecidableEq for Except

/-- Value of one byte as a digit in the given radix, following the Rust
char::to_digit method applied to a byte: ASCII decimal digits, then
lower-case letters, then upper-case letters, accepted only below the
radix. -/
def toDigit (radix b : Nat) : Option Nat :=
  if 48 ≤ b ∧ b ≤ 57 then
    if b - 48 < radix then some (b - 48) else none
  else if 97 ≤ b ∧ b ≤ 122 then
    if b - 87 < radix then some (b - 87) else none
  else if 65 ≤ b ∧ b ≤ 90 then
    if b - 55 < radix then some (b - 55) else none
  else none

/-- Accumulating digit loop of Rust from_str_radix for an unsigned
target type whose values are the naturals below the bound: each step
multiplies by the radix and adds the next digit, failing on a non-digit
byte or when the checked arithmetic would leave the type range. -/
def parseRadixDigits (radix bound : Nat) : List Nat → Nat → Option Nat
  | [], acc => some acc
  | b :: rest, acc =>
    match toDigit radix b with
    | none => none
    | some d =>
      if acc * radix + d < bound then parseRadixDigits radix bound rest (acc * radix + d)
      else none

/-- Rust u128::from_str_radix with radix 16 on a byte string: an
optional leading plus sign, then a non-empty run of hex digits, checked
against the 128-bit range (main.rs UUID::from_str uses this). -/
def u128FromStrRadix16 (s : List Nat) : Option Nat :=
  match s with
  | [] => none
  | b :: rest =>
    if b = 43 then
      match rest with
      | [] => none
      | _ => parseRadixDigits 16 (2 ^ 128) rest 0
    else parseRadixDigits 16 (2 ^ 128) s 0

/-- Rust i32::from_str_radix with radix 10 on a byte string: optional
plus or minus sign then non-empty decimal digits, checked against the
i32 range (beyondpod.rs get_feed_history parses track keys with it). -/
def i32FromStrRadix10 (s : List Nat) : Option Int :=
  match s with
  | [] => none
  | b :: rest =>
    if b = 43 then
      match rest with
      | [] => none
      | _ => (parseRadixDigits 10 (2 ^ 31) rest 0).map (fun v : Nat => (v : Int))
    else if b = 45 then
      match rest with
      | [] => none
      | _ => (parseRadixDigits 10 (2 ^ 31 + 1) rest 0).map (fun v : Nat => -(v : Int))
    else (parseRadixDigits 10 (2 ^ 31) s 0).map (fun v : Nat => (v : Int))

/-- Decimal digits of a natural number as ASCII bytes, most significant
first, with an accumulator for the already-produced low digits. -/
def natToDecGo : Nat → List Nat → List Nat
  | n, acc =>
    if h : n < 10 then (48 + n) :: acc
    else natToDecGo (n / 10) ((48 + n % 10) :: acc)
decreasing_by exact Nat.div_lt_self (by omega) (by omega)

/-- Decimal ASCII bytes of a natural number, as produced by the Rust
Display implementation for unsigned integers. -/
def natToDecimalBytes (n : Nat) : List Nat :=
  natToDecGo n []

/-- Reinterpretation of a u32 value as an i32, as the Rust cast
performs it: values at or above 2^31 wrap to negatives. -/
def u32AsI32 (k : Nat) : Int :=
  if k < 2 ^ 31 then (k : Int) else (k : Int) - 2 ^ 32

/-- Reinterpretation of an i32 value as a u32, as the Rust cast
performs it: reduction modulo 2^32. -/
def i32AsU32 (v : Int) : Nat :=
  (v % 2 ^ 32).toNat

/-- Decimal ASCII bytes of an i32 value, as produced by the Rust
Display implementation: a minus sign for negatives, then the digits of
the magnitude. -/
def i32ToString (v : Int) : List Nat :=
  if v < 0 then 45 :: natToDecimalBytes (-v).toNat else natToDecimalBytes v.toNat

/-- Lower-case hex ASCII byte of a value below 16. -/
def hexDigitByte (d : Nat) : Nat :=
  if d < 10 then 48 + d else 87 + d

/-- Fixed-width lower-case hex rendering of a natural number, most
significant digit first, as the Rust zero-padded lower-hex format
specifier produces for a value below 16 ^ w. -/
def natToHexPad : Nat → Nat → List Nat
  | _, 0 => []
  | n, w + 1 => natToHexPad (n / 16) w ++ [hexDigitByte (n % 16)]

/-- Canonical 36-byte textual form of a 128-bit UUID value
(main.rs, impl ToString for UUID): the five big-endian fields of the
value rendered as zero-padded lower hex, separated by hyphens. -/
def uuidToString (v : Nat) : List Nat :=
  natToHexPad (v / 2 ^ 96 % 2 ^ 32) 8 ++ [45] ++
  natToHexPad (v / 2 ^ 80 % 2 ^ 16) 4 ++ [45] ++
  natToHexPad (v / 2 ^ 64 % 2 ^ 16) 4 ++ [45] ++
  natToHexPad (v / 2 ^ 48 % 2 ^ 16) 4 ++ [45] ++
  natToHexPad (v % 2 ^ 48) 12

/-- Whether a byte is a UTF-8 continuation byte, between 0x80 and 0xBF. -/
def isCont (b : Nat) : Bool :=
  128 ≤ b ∧ b ≤ 191

/-- Rust str::is_char_boundary on the byte list of a string: position 0
and the position one past the last byte are boundaries, any other
position inside the string is a boundary exactly when its byte is not a
UTF-8 continuation byte, and a position beyond the end is no boundary.
A string slice whose endpoint is not a char boundary panics. -/
def isCharBoundary (s : List Nat) (i : Nat) : Bool :=
  if i = 0 ∨ i = s.length then true
  else
    match s.get? i with
    | none => false
    | some b => ! isCont b

/-- UUID decoding (main.rs, UUID::from_str).  The shape checks run in
the source's short-circuit order: a length other than 36 bytes returns
InvalidUUID before any slicing; then each of the four one-byte slices
at offsets 8, 13, 18 and 23 is taken in turn, panicking when either
endpoint of the slice is not a char boundary, and returning InvalidUUID
when the sliced byte is not a hyphen.  When all four checks pass, the
slice endpoints used to strip the hyphens are already known to be
boundaries, and the remaining 32 bytes are handed to u128 radix-16
parsing, whose failure is passed through as the boxed
integer-parse error. -/
def uuidFromStr (s : List Nat) : Except Err Nat :=
  if s.length ≠ 36 then Except.error Err.invalidUUID
  else if ¬ (isCharBoundary s 8 = true ∧ isCharBoundary s 9 = true) then
    Except.error Err.panicked
  else if (s.drop 8).take 1 ≠ [45] then Except.error Err.invalidUUID
  else if ¬ (isCharBoundary s 13 = true ∧ isCharBoundary s 14 = true) then
    Except.error Err.panicked
  else if (s.drop 13).take 1 ≠ [45] then Except.error Err.invalidUUID
  else if ¬ (isCharBoundary s 18 = true ∧ isCharBoundary s 19 = true) then
    Except.error Err.panicked
  else if (s.drop 18).take 1 ≠ [45] then Except.error Err.invalidUUID
  else if ¬ (isCharBoundary s 23 = true ∧ isCharBoundary s 24 = true) then
    Except.error Err.panicked
  else if (s.drop 23).take 1 ≠ [45] then Except.error Err.invalidUUID
  else
    match u128FromStrRadix16
        (s.take 8 ++ ((s.drop 9).take 4) ++ ((s.drop 14).take 4) ++
          ((s.drop 19).take 4) ++ s.drop 24) with
    | some n => Except.ok n
    | none => Except.error Err.parseIntError

/-- UTF-8 validity of a byte sequence per RFC 3629, as checked by the
Rust String::from_utf8 conversion used in the history-token iterator:
overlong encodings, surrogates and values above 0x10FFFF are rejected. -/
def utf8Valid : List Nat → Bool
  | [] => true
  | b :: rest =>
    if b < 128 then utf8Valid rest
    else
      match rest with
      | [] => false
      | c1 :: r1 =>
        if 194 ≤ b ∧ b ≤ 223 then isCont c1 && utf8Valid r1
        else
          match r1 with
          | [] => false
          | c2 :: r2 =>
            if b = 224 then (160 ≤ c1 ∧ c1 ≤ 191 : Bool) && isCont c2 && utf8Valid r2
            else if (225 ≤ b ∧ b ≤ 236) ∨ b = 238 ∨ b = 239 then
              isCont c1 && isCont c2 && utf8Valid r2
            else if b = 237 then (128 ≤ c1 ∧ c1 ≤ 159 : Bool) && isCont c2 && utf8Valid r2
            else
              match r2 with
              | [] => false
              | c3 :: r3 =>
                if b = 240 then
                  (144 ≤ c1 ∧ c1 ≤ 191 : Bool) && isCont c2 && isCont c3 && utf8Valid r3
                else if 241 ≤ b ∧ b ≤ 243 then
                  isCont c1 && isCont c2 && isCont c3 && utf8Valid r3
                else if b = 244 then
                  (128 ≤ c1 ∧ c1 ≤ 143 : Bool) && isCont c2 && isCont c3 && utf8Valid r3
                else false

/-- One call of the history-token iterator (beyondpod.rs,
HistoryTokenIter::next): read a big-endian u16 length, then that many
string bytes which must be valid UTF-8, then a big-endian u32 data
word.  The call returns the read result together with the reader's
position afterwards.  On success the string and data word are produced
and the reader stands past the token.  On failure the result is none
and the position follows the reads the source performed before
failing: a length or string or data-word shortfall has read_exact
drain the remaining bytes (the default read_exact implementation,
which the archive reader uses, reads until the buffer is full or the
stream ends), while an invalid-UTF-8 string leaves the reader right
after the string bytes, with the data word not yet consumed — a later
call resumes reading there. -/
def nextToken : List Nat → Option (List Nat × Nat) × List Nat
  | b0 :: b1 :: r =>
    if b0 * 256 + b1 ≤ r.length then
      if utf8Valid (r.take (b0 * 256 + b1)) then
        if b0 * 256 + b1 + 4 ≤ r.length then
          (some (r.take (b0 * 256 + b1),
            ((r.drop (b0 * 256 + b1)).take 4).foldl (fun a b => a * 256 + b) 0),
            (r.drop (b0 * 256 + b1)).drop 4)
        else (none, [])
      else (none, r.drop (b0 * 256 + b1))
    else (none, [])
  | _ => (none, [])

/-- The sequence of results successive iterator calls yield from a
byte stream, one entry per call, up to the point where the reader is
empty: from an empty reader every further call fails without moving,
so the end of this list stands for that permanent failure. -/
def tokenSeq (bytes : List Nat) : List (Option (List Nat × Nat)) :=
  if hne : bytes = [] then []
  else
    match h : nextToken bytes with
    | (some t, rest) => some t :: tokenSeq rest
    | (none, rest) => none :: tokenSeq rest
termination_by bytes.length
decreasing_by
  all_goals
  · have key : ∀ (x : List Nat), x ≠ [] → (nextToken x).2.length < x.length := by
      intro x hx
      rcases x with _ | ⟨c0, x⟩
      · exact absurd rfl hx
      rcases x with _ | ⟨c1, r⟩
      · exact Nat.zero_lt_one
      simp only [nextToken]
      split
      · split
        · split
          · simp only [List.length_drop, List.length_cons]
            omega
          · simp only [List.length_nil, List.length_cons]
            omega
        · simp only [List.length_drop, List.length_cons]
          omega
      · simp only [List.length_nil, List.length_cons]
        omega
    have hk := key bytes hne
    rw [h] at hk
    simpa using hk

/-- The skip loop of get_feed_history for a non-matching feed header
(beyondpod.rs, lines 116-120): call the iterator count times, breaking
out of the loop on the first failed call.  The resulting reader
position is where the failed call left it, so the enclosing scan
resumes reading there. -/
def skipTokens : Nat → List Nat → List Nat
  | 0, bytes => bytes
  | n + 1, bytes =>
    match nextToken bytes with
    | (none, rest) => rest
    | (some _, rest) => skipTokens n rest

/-- The matching branch of get_feed_history (beyondpod.rs, lines
108-114): take count tokens from the iterator, parse each string as a
decimal i32 and reinterpret it as a u32 track key, and collect the
key-to-flag pairs in stream order; a parse failure aborts with the
boxed integer-parse error, while stream exhaustion merely stops the
collection early. -/
def collectTracks : Nat → List Nat → Except Err (List (Nat × Nat))
  | 0, _ => Except.ok []
  | n + 1, bytes =>
    match nextToken bytes with
    | (none, _) => Except.ok []
    | (some (s, d), rest) =>
      match i32FromStrRadix10 s with
      | none => Except.error Err.parseIntError
      | some v =>
        match collectTracks n rest with
        | Except.ok l => Except.ok ((i32AsU32 v, d) :: l)
        | Except.error e => Except.error e

/-- Linear scan of the history blob for one feed (beyondpod.rs,
BeyondPod::get_feed_history): read header tokens, decode each header
string as a UUID, and on a match collect that header's track entries;
otherwise skip the declared number of tokens and continue reading at
the position the skip loop reached — after a failed read inside the
skip this position can sit in the middle of a token, so the scan can
resume misaligned.  A failed header read ends the scan with an empty
collection. -/
def getFeedHistory (feed : Nat) (bytes : List Nat) : Except Err (List (Nat × Nat)) :=
  match h : nextToken bytes with
  | (none, _) => Except.ok []
  | (some (idStr, count), rest) =>
    match uuidFromStr idStr with
    | Except.error e => Except.error e
    | Except.ok id =>
      if id = feed then collectTracks count rest
      else getFeedHistory feed (skipTokens count rest)
termination_by bytes.length
decreasing_by
  have hle : ∀ (x : List Nat), (nextToken x).2.length ≤ x.length := by
    intro x
    rcases x with _ | ⟨c0, x⟩
    · exact le_refl _
    rcases x with _ | ⟨c1, r⟩
    · exact Nat.zero_le _
    simp only [nextToken]
    split
    · split
      · split
        · simp only [List.length_drop, List.length_cons]
          omega
        · simp only [List.length_nil, List.length_cons]
          omega
      · simp only [List.length_drop, List.length_cons]
        omega
    · simp only [List.length_nil, List.length_cons]
      omega
  have hnext : ∀ (b s2 : List Nat) (d2 : Nat) (r2 : List Nat),
      nextToken b = (some (s2, d2), r2) → r2.length < b.length := by
    intro b s2 d2 r2 hb
    rcases b with _ | ⟨b0, b⟩
    · exact absurd hb (by simp [nextToken])
    rcases b with _ | ⟨b1, r⟩
    · exact absurd hb (by simp [nextToken])
    simp only [nextToken] at hb
    split at hb
    · split at hb
      · split at hb
        · simp only [Prod.mk.injEq, Option.some.injEq] at hb
          rw [← hb.2]
          simp only [List.length_drop, List.length_cons]
          omega
        · exact absurd hb (by simp)
      · exact absurd hb (by simp)
    · exact absurd hb (by simp)
  have hskip : ∀ (n : Nat) (b : List Nat), (skipTokens n b).length ≤ b.length := by
    intro n
    induction n with
    | zero => intro b; simp [skipTokens]
    | succ k ih =>
      intro b
      rcases hb : nextToken b with ⟨res, r2⟩
      cases res with
      | none =>
        have heq : skipTokens (k + 1) b = r2 := by simp [skipTokens, hb]
        rw [heq]
        have hl := hle b
        rw [hb] at hl
        simpa using hl
      | some t =>
        obtain ⟨s2, d2⟩ := t
        have hlt := hnext b s2 d2 r2 hb
        have heq : skipTokens (k + 1) b = skipTokens k r2 := by simp [skipTokens, hb]
        rw [heq]
        exact le_trans (ih r2) (le_of_lt hlt)
  exact lt_of_le_of_lt (hskip _ _) (hnext _ _ _ _ h)

/-- Big-endian bytes of a length value cast to u16, as
write_history_token emits them. -/
def u16Bytes (n : Nat) : List Nat :=
  [n / 256 % 256, n % 256]

/-- Big-endian bytes of a data word cast to u32, as
write_history_token emits them. -/
def u32Bytes (n : Nat) : List Nat :=
  [n / 2 ^ 24 % 256, n / 2 ^ 16 % 256, n / 2 ^ 8 % 256, n % 256]

/-- One history token on the wire (beyondpod.rs,
BeyondPod::write_history_token): the string length as a big-endian
u16, the string bytes, then the data word as a big-endian u32. -/
def writeHistoryToken (s : List Nat) (d : Nat) : List Nat :=
  u16Bytes s.length ++ s ++ u32Bytes d

/-- Serialisation of one feed's history (beyondpod.rs,
BeyondPod::write_feed_history): a header token carrying the textual
feed UUID and the entry count cast to u32, followed by one token per
entry whose string is the track key reinterpreted as an i32 and
rendered in decimal. -/
def writeFeedHistory (id : Nat) (feed : List (Nat × Nat)) : List Nat :=
  writeHistoryToken (uuidToString id) feed.length ++
    (feed.map (fun p => writeHistoryToken (i32ToString (u32AsI32 p.1)) p.2)).flatten

/-- Lookup in the association list standing for the Rust HashMap the
history decoder collects into: sequential insertion, so the last pair
with a given key wins. -/
def lookupLast (l : List (Nat × Nat)) (k : Nat) : Option Nat :=
  l.foldl (fun acc p => if p.1 = k then some p.2 else acc) none

/-- Name of the history-blob member inside the BeyondPod archive. -/
def HISTORY_FILE : String := "BeyondPodItemHistory.bin.autobak"

/-- Name of the relational-store member inside the BeyondPod archive. -/
def DB_FILE : String := "beyondpod.db.autobak"

/-- Rust Option::xor, used by the reconciliation logic: some exactly
when exactly one of the operands is some. -/
def optionXor : Option Bool → Option Bool → Option Bool
  | some a, none => some a
  | none, some b => some b
  | _, _ => none

/-- Wrapping polynomial hash of a guid's bytes (beyondpod.rs,
BeyondPod::guid_to_track_id): base 31, unsigned 32-bit, wrap on
overflow. -/
def guidToTrackId (guid : List Nat) : Nat :=
  guid.foldl (fun acc b => (acc * 31 + b) % 2 ^ 32) 0

/-- Oracle view of one BeyondPod backend instance: the outcome of each
query the backend issues, plus the archive contents.  feeds maps a feed
URL to the feedid text and hasunread column of the single expected row
(or a relational error, with queryReturnedNoRows for an empty result as
get_feed produces); trackRow maps a feed UUID value and derived track
key to the played and playedtime columns in the same way, as get_track
produces; updateRes is the outcome of the save-path UPDATE for those
keys (an UPDATE does not change row existence, so trackRow stays valid
across save); intoFile is the outcome of closing the store and reading
back its bytes; members are the archive members in original order,
each a name with its decompressed bytes. -/
structure BPEnv where
  feeds : String → Except SqlErr (List Nat × Int)
  trackRow : Nat → Nat → Except SqlErr (Bool × Int)
  updateRes : Nat → Nat → Bool → Int → Except SqlErr Unit
  intoFile : Except Err (List Nat)
  members : List (String × List Nat)

/-- Archive lookup by member name (the zip by_name call): the first
member with the given name, or an I/O error when absent. -/
def findMember (members : List (String × List Nat)) (name : String) : Except Err (List Nat) :=
  match members.find? (fun m => m.1 = name) with
  | some m => Except.ok m.2
  | none => Except.error Err.ioError

/-- Per-track body of BeyondPod populate (beyondpod.rs, lines 154-199).
The relational row is reduced with ok(), so any error leaves both the
played flag and the progress source absent; a non-negative playedtime
becomes the progress source; the history flag word is compared against
65; the two played sources are reconciled (agreement keeps the value, a
disagreement is logged as a mismatch and resolves to false, a single
source is taken as is via Option xor, absence defaults to false); the
final status is Played when resolved played, else Playing when the
freshly assigned progress is positive, else Unplayed.  The second
component records whether the mismatch message was printed. -/
def populateTrack (row : Except SqlErr (Bool × Int)) (histFlags : Option Nat)
    (t : Track) : Track × Bool :=
  let sp : Option Bool × Option Int :=
    match row.toOption with
    | none => (none, none)
    | some (played, played_time) =>
      (some played, if played_time ≥ 0 then some played_time else none)
  let sql_played := sp.1
  let sql_progress := sp.2
  let history_played := histFlags.map (fun flags => flags == 65)
  let pm : Bool × Bool :=
    match sql_played.bind (fun s => history_played.map (fun h => (s, h))) with
    | some (s, h) => if s = h then (s, false) else (false, true)
    | none => ((optionXor sql_played history_played).getD false, false)
  let progress := sql_progress.getD 0
  ({ t with
      progress := progress
      playing_status :=
        if pm.1 then PlayingStatus.Played
        else if progress > 0 then PlayingStatus.Playing
        else PlayingStatus.Unplayed },
    pm.2)

/-- BeyondPod populate (beyondpod.rs, Player::populate for BeyondPod):
resolve the feed row by URL (zero rows is fatal), parse its feedid as a
UUID, decode the feed's history entries from the archive's history
member, then rewrite every track in place through populateTrack. -/
def bpPopulate (env : BPEnv) (p : Podcast) : Except Err Podcast :=
  match env.feeds p.url with
  | Except.error e => Except.error (Err.sqlError e)
  | Except.ok (idStr, _unread) =>
    match uuidFromStr idStr with
    | Except.error e => Except.error e
    | Except.ok id =>
      match findMember env.members HISTORY_FILE with
      | Except.error e => Except.error e
      | Except.ok histBytes =>
        match getFeedHistory id histBytes with
        | Except.error e => Except.error e
        | Except.ok history =>
          let newTracks := p.tracks.map (fun t =>
            (populateTrack (env.trackRow id (guidToTrackId t.guid))
              (lookupLast history (guidToTrackId t.guid)) t).1)
          Except.ok { p with tracks := newTracks }

/-- Per-track body of the BeyondPod save loop (beyondpod.rs, lines
219-231): recompute played from the in-memory status, probe the store
for the row, update it when present (propagating update errors), and
produce a history entry with flag 65 for played or 64 for
present-but-unplayed, or no entry when the track is neither played nor
present. -/
def bpSaveTrack (env : BPEnv) (id : Nat) (t : Track) : Except Err (Option (Nat × Nat)) :=
  let track_id := guidToTrackId t.guid
  let played := t.playing_status == PlayingStatus.Played
  let is_in_db := (env.trackRow id track_id).isOk
  match (if is_in_db then env.updateRes id track_id played t.progress else Except.ok ()) with
  | Except.error e => Except.error (Err.sqlError e)
  | Except.ok _ =>
    if played || is_in_db then Except.ok (some (track_id, if played then 65 else 64))
    else Except.ok none

/-- The entry list one podcast accumulates during BeyondPod save, in
track order. -/
def bpSaveEntries (env : BPEnv) (id : Nat) : List Track → Except Err (List (Nat × Nat))
  | [] => Except.ok []
  | t :: ts =>
    match bpSaveTrack env id t with
    | Except.error e => Except.error e
    | Except.ok none => bpSaveEntries env id ts
    | Except.ok (some entry) =>
      match bpSaveEntries env id ts with
      | Except.error e => Except.error e
      | Except.ok l => Except.ok (entry :: l)

/-- Bytes one podcast appends to the new history blob during BeyondPod
save (beyondpod.rs, lines 214-236): resolve the feed, accumulate the
qualifying entries, and serialise them only when at least one entry was
produced. -/
def bpSavePodcast (env : BPEnv) (p : Podcast) : Except Err (List Nat) :=
  match env.feeds p.url with
  | Except.error e => Except.error (Err.sqlError e)
  | Except.ok (idStr, _unread) =>
    match uuidFromStr idStr with
    | Except.error e => Except.error e
    | Except.ok id =>
      match bpSaveEntries env id p.tracks with
      | Except.error e => Except.error e
      | Except.ok entries =>
        if entries.length > 0 then Except.ok (writeFeedHistory id entries)
        else Except.ok []

/-- The whole new history blob BeyondPod save writes into its in-memory
cursor: the podcasts' contributions concatenated in iteration order,
stopping at the first error. -/
def bpBuildHist (env : BPEnv) : List Podcast → Except Err (List Nat)
  | [] => Except.ok []
  | p :: ps =>
    match bpSavePodcast env p with
    | Except.error e => Except.error e
    | Except.ok b =>
      match bpBuildHist env ps with
      | Except.error e => Except.error e
      | Except.ok bs => Except.ok (b ++ bs)

/-- The archive rewrite loop of BeyondPod save (beyondpod.rs, lines
241-256), together with an explicit model of the output sink: members
are emitted in original index order; a member named as the history blob
receives the new history bytes (the cursor is rewound before every
copy), a member named as the store blob receives the store bytes read
from the reopened temp file, whose read position is not rewound, so
only the first such member receives them and any later one reads
nothing; every other member's bytes are copied through unchanged.  The
sink accepts the number of member writes given by cap (no bound when
none) and fails with an I/O error afterwards, modelling a failing
writer; the members written before the failure remain emitted. -/
def copyMembers (hist dbBytes : List Nat) :
    List (String × List Nat) → Bool → Option Nat →
    List (String × List Nat) × Option Err
  | [], _, _ => ([], none)
  | (name, bytes) :: rest, dbUsed, cap =>
    match cap with
    | some 0 => ([], some Err.ioError)
    | _ =>
      let content :=
        if name = HISTORY_FILE then hist
        else if name = DB_FILE then (if dbUsed then [] else dbBytes)
        else bytes
      let next := copyMembers hist dbBytes rest (dbUsed || decide (name = DB_FILE)) (cap.map (· - 1))
      ((name, content) :: next.1, next.2)

/-- BeyondPod save (beyondpod.rs, Player::save for BeyondPod): build
the new history blob podcast by podcast, close the store into its final
bytes, then rewrite the archive member by member.  The result is the
list of members that reached the sink together with the error, if any;
failures before the rewrite loop emit nothing. -/
def bpSave (env : BPEnv) (podcasts : List Podcast) (cap : Option Nat) :
    List (String × List Nat) × Option Err :=
  match bpBuildHist env podcasts with
  | Except.error e => ([], some e)
  | Except.ok hist =>
    match env.intoFile with
    | Except.error e => ([], some e)
    | Except.ok dbBytes => copyMembers hist dbBytes env.members false cap

/-- Oracle view of one PocketCasts backend instance: podcastRow maps a
title to the uuid text of the single expected row (zero rows reported
as queryReturnedNoRows, as get_podcast produces); episodeRow maps a
podcast UUID value and episode URL to the playing_status integer and
the played_up_to float already cast to an i32 value, as populate reads
them; updateRes is the outcome of the two save-path UPDATEs for an
episode; intoFile is the outcome of closing the store and reading back
its bytes. -/
structure PCEnv where
  podcastRow : String → Except SqlErr (List Nat)
  episodeRow : Nat → String → Except SqlErr (Int × Int)
  updateRes : Nat → String → Int → Int → Int → Except SqlErr Unit
  intoFile : Except Err (List Nat)

/-- Decoding of the stored playing_status integer (pocketcasts.rs,
lines 87-92): 0, 1 and 2 map to the three states and anything else is
the InvalidPlayingStatus error. -/
def pcDecodeStatus (n : Int) : Except Err PlayingStatus :=
  if n = 0 then Except.ok PlayingStatus.Unplayed
  else if n = 1 then Except.ok PlayingStatus.Playing
  else if n = 2 then Except.ok PlayingStatus.Played
  else Except.error Err.invalidPlayingStatus

/-- Per-track body of PocketCasts populate (pocketcasts.rs, lines
82-101): an existing row sets progress to the stored offset clamped
below by zero and decodes the status fatally; a zero-rows miss logs and
keeps the defaults; any other relational error propagates. -/
def pcPopulateTrack (env : PCEnv) (id : Nat) (t : Track) : Except Err Track :=
  match env.episodeRow id t.url with
  | Except.ok (playing_status_i, played_up_to) =>
    let progress := max played_up_to 0
    match pcDecodeStatus playing_status_i with
    | Except.error e => Except.error e
    | Except.ok ps => Except.ok { t with progress := progress, playing_status := ps }
  | Except.error SqlErr.queryReturnedNoRows => Except.ok t
  | Except.error e => Except.error (Err.sqlError e)

/-- Track loop of PocketCasts populate: rewrite tracks in order,
stopping at the first fatal error. -/
def pcPopulateTracks (env : PCEnv) (id : Nat) : List Track → Except Err (List Track)
  | [] => Except.ok []
  | t :: ts =>
    match pcPopulateTrack env id t with
    | Except.error e => Except.error e
    | Except.ok t2 =>
      match pcPopulateTracks env id ts with
      | Except.error e => Except.error e
      | Except.ok l => Except.ok (t2 :: l)

/-- PocketCasts populate (pocketcasts.rs, Player::populate): resolve
the podcast row by title (zero rows is fatal), parse its uuid, then
rewrite every track. -/
def pcPopulate (env : PCEnv) (p : Podcast) : Except Err Podcast :=
  match env.podcastRow p.title with
  | Except.error e => Except.error (Err.sqlError e)
  | Except.ok uuidStr =>
    match uuidFromStr uuidStr with
    | Except.error e => Except.error e
    | Except.ok id =>
      match pcPopulateTracks env id p.tracks with
      | Except.error e => Except.error e
      | Except.ok tracks => Except.ok { p with tracks := tracks }

/-- Status encoding used by PocketCasts save (pocketcasts.rs, lines
119-123). -/
def pcEncodeStatus : PlayingStatus → Int
  | PlayingStatus.Unplayed => 0
  | PlayingStatus.Playing => 1
  | PlayingStatus.Played => 2

/-- Update loop of PocketCasts save for one podcast: resolve the uuid
by title, then push every track's progress and encoded status with the
shared timestamp. -/
def pcSavePodcast (env : PCEnv) (now : Int) (p : Podcast) : Except Err Unit :=
  match env.podcastRow p.title with
  | Except.error e => Except.error (Err.sqlError e)
  | Except.ok uuidStr =>
    match uuidFromStr uuidStr with
    | Except.error e => Except.error e
    | Except.ok id =>
      p.tracks.foldlM (fun _ t =>
        match env.updateRes id t.url t.progress (pcEncodeStatus t.playing_status) now with
        | Except.error e => Except.error (Err.sqlError e)
        | Except.ok _ => Except.ok ()) ()

/-- Update phase of PocketCasts save over all podcasts. -/
def pcSaveAll (env : PCEnv) (now : Int) : List Podcast → Except Err Unit
  | [] => Except.ok ()
  | p :: ps =>
    match pcSavePodcast env now p with
    | Except.error e => Except.error e
    | Except.ok _ => pcSaveAll env now ps

/-- PocketCasts save (pocketcasts.rs, Player::save): run the updates,
close the store, then copy its bytes verbatim to the sink.  The sink
accepts cap bytes (no bound when none) and fails with an I/O error
afterwards; the result is the bytes that reached the sink together
with the error, if any. -/
def pcSave (env : PCEnv) (podcasts : List Podcast) (now : Int) (cap : Option Nat) :
    List Nat × Option Err :=
  match pcSaveAll env now podcasts with
  | Except.error e => ([], some e)
  | Except.ok _ =>
    match env.intoFile with
    | Except.error e => ([], some e)
    | Except.ok dbBytes =>
      match cap with
      | none => (dbBytes, none)
      | some n =>
        if dbBytes.length ≤ n then (dbBytes, none)
        else (dbBytes.take n, some Err.ioError)

/-- Specification-side reconciliation table, written from the claim:
both sources present and agreeing keep the value, a disagreement
resolves to false, exactly one source present is taken directly,
absence of both defaults to false. -/
def claimResolvedPlayed (r h : Option Bool) : Bool :=
  match r, h with
  | some a, some b => if a = b then a else false
  | some a, none => a
  | none, some b => b
  | none, none => false

/-- Specification-side final status rule, written from the claim:
Played when resolved played, else Playing when progress is positive,
else Unplayed. -/
def claimStatus (resolved : Bool) (progress : Int) : PlayingStatus :=
  if resolved then PlayingStatus.Played
  else if progress > 0 then PlayingStatus.Playing
  else PlayingStatus.Unplayed

/-- Specification-side shape predicate for UUID text, written from the
claim: exactly 36 bytes with hyphens at offsets 8, 13, 18 and 23. -/
def uuidShape (s : List Nat) : Prop :=
  s.length = 36 ∧ s.get? 8 = some 45 ∧ s.get? 13 = some 45 ∧
    s.get? 18 = some 45 ∧ s.get? 23 = some 45

instance (s : List Nat) : Decidable (uuidShape s) := by
  unfold uuidShape; infer_instance

/-- All eight byte positions the UUID shape check slices at are char
boundaries, so none of the four one-byte slices panics.  Every string
of ASCII bytes with length 36 satisfies this; a 36-byte string can
violate it only where a multi-byte character spans a checked offset. -/
def uuidSliceSafe (s : List Nat) : Prop :=
  isCharBoundary s 8 = true ∧ isCharBoundary s 9 = true ∧
    isCharBoundary s 13 = true ∧ isCharBoundary s 14 = true ∧
    isCharBoundary s 18 = true ∧ isCharBoundary s 19 = true ∧
    isCharBoundary s 23 = true ∧ isCharBoundary s 24 = true

instance (s : List Nat) : Decidable (uuidSliceSafe s) := by
  unfold uuidSliceSafe; infer_instance

/-- The 32 bytes of a 36-byte UUID string with the four hyphens
stripped. -/
def stripUuidHyphens (s : List Nat) : List Nat :=
  s.take 8 ++ ((s.drop 9).take 4) ++ ((s.drop 14).take 4) ++
    ((s.drop 19).take 4) ++ s.drop 24

/-- Whether a byte is a hex digit in the sense of char::to_digit with
radix 16. -/
def isHexByte (b : Nat) : Bool :=
  (toDigit 16 b).isSome

/-- Plain radix-16 value of a byte string all of whose bytes are hex
digits, with no overflow checking: the specification-side reading of
what the 32 stripped characters denote. -/
def hexVal (l : List Nat) : Nat :=
  l.foldl (fun a b => a * 16 + (toDigit 16 b).getD 0) 0

/-- Specification-side description of Rust radix-16 u128 parsing on a
short digit string: all bytes hex digits, or a leading plus sign
followed by a non-empty run of hex digits. -/
def hexSpecParse (d : List Nat) : Option Nat :=
  if d ≠ [] ∧ d.all isHexByte then some (hexVal d)
  else
    match d with
    | b :: t => if b = 43 ∧ t ≠ [] ∧ t.all isHexByte then some (hexVal t) else none
    | [] => none

/-- Decoding of one history track token, specification side: the
string parses as a decimal i32 and is reinterpreted as a u32 key. -/
def parseHistEntry (t : List Nat × Nat) : Except Err (Nat × Nat) :=
  match i32FromStrRadix10 t.1 with
  | none => Except.error Err.parseIntError
  | some v => Except.ok (i32AsU32 v, t.2)

/-- Drop of iterator results for the skip loop, specification side:
consume up to the given number of entries, a successful entry counting
against the quota and a failed entry ending the drop at once — the
loop breaks having consumed the failure, so the remainder after the
failed entry is kept. -/
def dropTokens : Nat → List (Option (List Nat × Nat)) → List (Option (List Nat × Nat))
  | 0, l => l
  | _ + 1, [] => []
  | _ + 1, none :: l => l
  | n + 1, some _ :: l => dropTokens n l

/-- Collection of the matching header's entries, specification side:
take up to count iterator results, ending the collection without error
at a failed entry or at the end of the sequence, decoding each taken
token and stopping at the first decode error. -/
def collectTracksSpec : Nat → List (Option (List Nat × Nat)) → Except Err (List (Nat × Nat))
  | 0, _ => Except.ok []
  | _ + 1, [] => Except.ok []
  | _ + 1, none :: _ => Except.ok []
  | n + 1, some t :: rest =>
    match parseHistEntry t with
    | Except.error e => Except.error e
    | Except.ok b =>
      match collectTracksSpec n rest with
      | Except.error e => Except.error e
      | Except.ok bs => Except.ok (b :: bs)

/-- Specification-side history scan over the sequence of iterator read
results, written from the amended claim: a failed read or the end of
the sequence ends the scan with an empty mapping; a header whose id
fails UUID decoding aborts with that outcome; a matching header
collects up to its declared count of following entries; a non-matching
header drops up to that count of entries — a failed read breaks the
drop early, after which the scan continues on what follows the
failure. -/
def findFeedHistorySpec (feed : Nat) : List (Option (List Nat × Nat)) → Except Err (List (Nat × Nat))
  | [] => Except.ok []
  | none :: _ => Except.ok []
  | some (idStr, count) :: rest =>
    match uuidFromStr idStr with
    | Except.error e => Except.error e
    | Except.ok id =>
      if id = feed then collectTracksSpec count rest
      else findFeedHistorySpec feed (dropTokens count rest)
termination_by l => l.length
decreasing_by
  have hdrop : ∀ (n : Nat) (l : List (Option (List Nat × Nat))),
      (dropTokens n l).length ≤ l.length := by
    intro n
    induction n with
    | zero => intro l; exact le_refl _
    | succ k ih =>
      intro l
      rcases l with _ | ⟨a, l⟩
      · exact le_refl _
      rcases a with _ | t
      · show l.length ≤ l.length + 1
        omega
      · show (dropTokens k l).length ≤ l.length + 1
        have := ih l
        omega
  simp only [List.length_cons]
  exact Nat.lt_succ_of_le (hdrop count rest)

/-- Specification-side description of the entries one podcast
contributes to the new history blob, written from the claim: one entry
per track that is played or present in the relational store, in track
order, flag 65 when played and 64 when present but not played. -/
def qualifyingEntries (env : BPEnv) (id : Nat) (tracks : List Track) : List (Nat × Nat) :=
  tracks.filterMap (fun t =>
    let tid := guidToTrackId t.guid
    let played := t.playing_status == PlayingStatus.Played
    let inDb := (env.trackRow id tid).isOk
    if played || inDb then some (tid, if played then 65 else 64) else none)

/-- Specification-side content rule for one rewritten archive member:
the history member receives the new history bytes, the store member
receives the store bytes unless the store file was already consumed,
and every other member keeps its own bytes. -/
def rewriteContentSpec (hist db bytes : List Nat) (name : String) (consumed : Bool) : List Nat :=
  if name = HISTORY_FILE then hist
  else if name = DB_FILE then (if consumed then [] else db)
  else bytes

theorem utf8Valid_of_ascii : ∀ s : List Nat, (∀ b ∈ s, b < 128) → utf8Valid s = true := by
  intro s
  induction s with
  | nil => intro _; rfl
  | cons b rest ih =>
    intro h
    have hb : b < 128 := h b (List.mem_cons_self _ _)
    have hrest : utf8Valid rest = true := ih (fun x hx => h x (List.mem_cons_of_mem _ hx))
    rw [utf8Valid.eq_def]
    simpa [hb] using hrest

theorem isCharBoundary_of_ascii {s : List Nat} {i : Nat} (ha : ∀ b ∈ s, b < 128)
    (hi : i ≤ s.length) : isCharBoundary s i = true := by
  unfold isCharBoundary
  by_cases h0 : i = 0 ∨ i = s.length
  · rw [if_pos h0]
  · rw [if_neg h0]
    push_neg at h0
    have hlt : i < s.length := lt_of_le_of_ne hi h0.2
    rw [List.get?_eq_get hlt]
    have hb := ha (s.get ⟨i, hlt⟩) (s.get_mem _ _)
    simp only [isCont]
    simp only [decide_eq_true_eq, Bool.not_eq_true', decide_eq_false_iff_not]
    omega

theorem nextToken_rest_le (b : List Nat) : (nextToken b).2.length ≤ b.length := by
  rcases b with _ | ⟨b0, b⟩
  · exact le_refl _
  rcases b with _ | ⟨b1, r⟩
  · exact Nat.zero_le _
  simp only [nextToken]
  split
  · split
    · split
      · simp only [List.length_drop, List.length_cons]
        omega
      · simp only [List.length_nil, List.length_cons]
        omega
    · simp only [List.length_drop, List.length_cons]
      omega
  · simp only [List.length_nil, List.length_cons]
    omega

theorem nextToken_rest_lt {b : List Nat} (hb : b ≠ []) : (nextToken b).2.length < b.length := by
  rcases b with _ | ⟨b0, b⟩
  · exact absurd rfl hb
  rcases b with _ | ⟨b1, r⟩
  · exact Nat.zero_lt_one
  simp only [nextToken]
  split
  · split
    · split
      · simp only [List.length_drop, List.length_cons]
        omega
      · simp only [List.length_nil, List.length_cons]
        omega
    · simp only [List.length_drop, List.length_cons]
      omega
  · simp only [List.length_nil, List.length_cons]
    omega

theorem nextToken_some_lt {b s : List Nat} {d : Nat} {r : List Nat}
    (hb : nextToken b = (some (s, d), r)) : r.length < b.length := by
  have hne : b ≠ [] := by
    intro hnil
    subst hnil
    exact absurd hb (by simp [nextToken])
  have h := nextToken_rest_lt hne
  rw [hb] at h
  simpa using h

theorem skipTokens_length_le : ∀ (n : Nat) (b : List Nat), (skipTokens n b).length ≤ b.length := by
  intro n
  induction n with
  | zero => intro b; simp [skipTokens]
  | succ k ih =>
    intro b
    rcases hb : nextToken b with ⟨res, r2⟩
    cases res with
    | none =>
      have heq : skipTokens (k + 1) b = r2 := by simp [skipTokens, hb]
      rw [heq]
      have hl := nextToken_rest_le b
      rw [hb] at hl
      simpa using hl
    | some t =>
      obtain ⟨s, d⟩ := t
      have hlt := nextToken_some_lt hb
      have heq : skipTokens (k + 1) b = skipTokens k r2 := by simp [skipTokens, hb]
      rw [heq]
      exact le_trans (ih r2) (le_of_lt hlt)

theorem tokenSeq_nil : tokenSeq [] = [] := by
  rw [tokenSeq]
  rw [dif_pos rfl]

theorem tokenSeq_of_some {bytes : List Nat} {t : List Nat × Nat} {rest : List Nat}
    (h : nextToken bytes = (some t, rest)) :
    tokenSeq bytes = some t :: tokenSeq rest := by
  have hne : bytes ≠ [] := by
    intro hnil
    subst hnil
    exact absurd h (by simp [nextToken])
  rw [tokenSeq, dif_neg hne]
  split
  · rename_i t2 rest2 heq
    rw [heq] at h
    simp only [Prod.mk.injEq, Option.some.injEq] at h
    rw [h.1, h.2]
  · rename_i rest2 heq
    rw [heq] at h
    simp at h

theorem tokenSeq_of_none {bytes : List Nat} {rest : List Nat} (hb : bytes ≠ [])
    (h : nextToken bytes = (none, rest)) :
    tokenSeq bytes = none :: tokenSeq rest := by
  rw [tokenSeq, dif_neg hb]
  split
  · rename_i t2 rest2 heq
    rw [heq] at h
    simp at h
  · rename_i rest2 heq
    rw [heq] at h
    simp only [Prod.mk.injEq] at h
    rw [h.2]

theorem getFeedHistory_of_none {feed : Nat} {bytes rest : List Nat}
    (h : nextToken bytes = (none, rest)) :
    getFeedHistory feed bytes = Except.ok [] := by
  rw [getFeedHistory]
  split
  · rfl
  · rename_i s2 d2 rest2 heq
    rw [heq] at h
    simp at h

theorem getFeedHistory_of_some {feed : Nat} {bytes s : List Nat} {d : Nat} {rest : List Nat}
    (h : nextToken bytes = (some (s, d), rest)) :
    getFeedHistory feed bytes =
      (match uuidFromStr s with
       | Except.error e => Except.error e
       | Except.ok id =>
         if id = feed then collectTracks d rest
         else getFeedHistory feed (skipTokens d rest)) := by
  rw [getFeedHistory]
  split
  · rename_i rest2 heq
    rw [heq] at h
    simp at h
  · rename_i s2 d2 rest2 heq
    rw [heq] at h
    simp only [Prod.mk.injEq, Option.some.injEq] at h
    obtain ⟨⟨h1, h2⟩, h3⟩ := h
    subst h1
    subst h2
    subst h3
    rfl

theorem nextToken_writeHistoryToken (s : List Nat) (d : Nat) (rest : List Nat)
    (hs : s.length < 2 ^ 16) (hv : utf8Valid s = true) :
    nextToken (writeHistoryToken s d ++ rest) = (some (s, d % 2 ^ 32), rest) := by
  have e1 : writeHistoryToken s d ++ rest
      = s.length / 256 % 256 :: s.length % 256 :: (s ++ (u32Bytes d ++ rest)) := by
    simp [writeHistoryToken, u16Bytes, List.append_assoc]
  rw [e1]
  have hL : s.length / 256 % 256 * 256 + s.length % 256 = s.length := by omega
  simp only [nextToken, hL]
  have hlen0 : s.length ≤ (s ++ (u32Bytes d ++ rest)).length := by
    simp
  have hlen : s.length + 4 ≤ (s ++ (u32Bytes d ++ rest)).length := by
    simp [u32Bytes]
  rw [if_pos hlen0, List.take_left, if_pos hv, if_pos hlen, List.drop_left]
  have h4 : (u32Bytes d ++ rest).take 4 = u32Bytes d := by
    rw [show (4 : Nat) = (u32Bytes d).length from by simp [u32Bytes], List.take_left]
  have h5 : (u32Bytes d ++ rest).drop 4 = rest := by
    rw [show (4 : Nat) = (u32Bytes d).length from by simp [u32Bytes], List.drop_left]
  rw [h4, h5]
  simp only [u32Bytes, List.foldl_cons, List.foldl_nil, Prod.mk.injEq, Option.some.injEq,
    true_and, and_true]
  omega

theorem toDigit_dec {d : Nat} (hd : d < 10) : toDigit 10 (48 + d) = some d := by
  unfold toDigit
  rw [if_pos (by omega : 48 ≤ 48 + d ∧ 48 + d ≤ 57), if_pos (by omega : 48 + d - 48 < 10)]
  congr 1
  omega

theorem toDigit_hexDigitByte {d : Nat} (hd : d < 16) : toDigit 16 (hexDigitByte d) = some d := by
  unfold hexDigitByte
  split_ifs with h
  · unfold toDigit
    rw [if_pos (by omega : 48 ≤ 48 + d ∧ 48 + d ≤ 57), if_pos (by omega : 48 + d - 48 < 16)]
    congr 1
    omega
  · unfold toDigit
    rw [if_neg (by omega : ¬(48 ≤ 87 + d ∧ 87 + d ≤ 57)),
      if_pos (by omega : 97 ≤ 87 + d ∧ 87 + d ≤ 122), if_pos (by omega : 87 + d - 87 < 16)]
    congr 1
    omega

theorem parseRadixDigits_append (r B : Nat) : ∀ (xs ys : List Nat) (a : Nat),
    parseRadixDigits r B (xs ++ ys) a =
      (match parseRadixDigits r B xs a with
       | none => none
       | some v => parseRadixDigits r B ys v) := by
  intro xs
  induction xs with
  | nil => intro ys a; simp [parseRadixDigits]
  | cons b bs ih =>
    intro ys a
    rw [List.cons_append]
    cases h : toDigit r b with
    | none => simp [parseRadixDigits, h]
    | some d =>
      simp only [parseRadixDigits, h]
      split
      · exact ih ys _
      · rfl

theorem natToDecGo_append : ∀ (n : Nat) (acc : List Nat),
    natToDecGo n acc = natToDecGo n [] ++ acc := by
  intro n
  induction n using Nat.strong_induction_on with
  | _ n ih =>
    intro acc
    by_cases h : n < 10
    · rw [natToDecGo, dif_pos h, natToDecGo, dif_pos h]
      simp
    · rw [natToDecGo, dif_neg h]
      rw [ih (n / 10) (Nat.div_lt_self (by omega) (by omega)) ((48 + n % 10) :: acc)]
      conv_rhs => rw [natToDecGo, dif_neg h]
      rw [ih (n / 10) (Nat.div_lt_self (by omega) (by omega)) [48 + n % 10]]
      simp [List.append_assoc]

theorem natToDecimalBytes_lt {n : Nat} (h : n < 10) : natToDecimalBytes n = [48 + n] := by
  rw [natToDecimalBytes, natToDecGo]
  simp [h]

theorem natToDecimalBytes_ge {n : Nat} (h : 10 ≤ n) :
    natToDecimalBytes n = natToDecimalBytes (n / 10) ++ [48 + n % 10] := by
  rw [natToDecimalBytes, natToDecGo, dif_neg (by omega : ¬ n < 10)]
  exact natToDecGo_append (n / 10) [48 + n % 10]

theorem parse_natToDecimalBytes {B : Nat} : ∀ n : Nat, n < B →
    parseRadixDigits 10 B (natToDecimalBytes n) 0 = some n := by
  intro n
  induction n using Nat.strong_induction_on with
  | _ n ih =>
    intro hn
    by_cases h : n < 10
    · rw [natToDecimalBytes_lt h]
      simp only [parseRadixDigits, toDigit_dec h]
      rw [if_pos (by omega : 0 * 10 + n < B)]
      simp only [parseRadixDigits, Option.some.injEq]
      omega
    · rw [natToDecimalBytes_ge (by omega)]
      rw [parseRadixDigits_append]
      rw [ih (n / 10) (Nat.div_lt_self (by omega) (by omega)) (by omega : n / 10 < B)]
      simp only [parseRadixDigits, toDigit_dec (by omega : n % 10 < 10)]
      rw [if_pos (by omega : n / 10 * 10 + n % 10 < B)]
      simp only [parseRadixDigits, Option.some.injEq]
      omega

theorem natToDecGo_mem : ∀ (n : Nat) (acc : List Nat) (b : Nat),
    b ∈ natToDecGo n acc → (48 ≤ b ∧ b ≤ 57) ∨ b ∈ acc := by
  intro n
  induction n using Nat.strong_induction_on with
  | _ n ih =>
    intro acc b hb
    by_cases h : n < 10
    · rw [natToDecGo, dif_pos h] at hb
      rcases List.mem_cons.mp hb with h2 | h2
      · left; omega
      · right; exact h2
    · rw [natToDecGo, dif_neg h] at hb
      rcases ih (n / 10) (Nat.div_lt_self (by omega) (by omega)) _ b hb with h2 | h2
      · left; exact h2
      · rcases List.mem_cons.mp h2 with h3 | h3
        · left; omega
        · right; exact h3

theorem natToDecimalBytes_mem {n b : Nat} (hb : b ∈ natToDecimalBytes n) :
    48 ≤ b ∧ b ≤ 57 := by
  rcases natToDecGo_mem n [] b hb with h | h
  · exact h
  · cases h

theorem natToDecimalBytes_length : ∀ (k n : Nat), n < 10 ^ k →
    (natToDecimalBytes n).length ≤ k + 1 := by
  intro k
  induction k with
  | zero =>
    intro n hn
    have : n = 0 := by simpa using hn
    subst this
    rw [natToDecimalBytes_lt (by omega)]
    simp
  | succ j ih =>
    intro n hn
    by_cases h : n < 10
    · rw [natToDecimalBytes_lt h]
      simp
    · rw [natToDecimalBytes_ge (by omega)]
      have hdiv : n / 10 < 10 ^ j := by
        have := Nat.pow_succ 10 j
        omega
      have := ih (n / 10) hdiv
      simp only [List.length_append, List.length_cons, List.length_nil]
      omega

theorem natToDecimalBytes_ne_nil (n : Nat) : natToDecimalBytes n ≠ [] := by
  by_cases h : n < 10
  · rw [natToDecimalBytes_lt h]
    simp
  · rw [natToDecimalBytes_ge (by omega)]
    simp

theorem u32AsI32_lb {k : Nat} (hk : k < 2 ^ 32) : -(2 ^ 31) ≤ u32AsI32 k := by
  unfold u32AsI32
  split_ifs with h
  · omega
  · omega

theorem u32AsI32_ub {k : Nat} (hk : k < 2 ^ 32) : u32AsI32 k < 2 ^ 31 := by
  unfold u32AsI32
  split_ifs with h
  · omega
  · omega

theorem i32AsU32_u32AsI32 {k : Nat} (hk : k < 2 ^ 32) : i32AsU32 (u32AsI32 k) = k := by
  unfold i32AsU32 u32AsI32
  split_ifs with h
  · omega
  · omega

theorem i32ToString_roundtrip {v : Int} (h1 : -(2 ^ 31) ≤ v) (h2 : v < 2 ^ 31) :
    i32FromStrRadix10 (i32ToString v) = some v := by
  unfold i32ToString
  split_ifs with hneg
  · have hne := natToDecimalBytes_ne_nil (-v).toNat
    obtain ⟨b0, t, hbt⟩ := List.exists_cons_of_ne_nil hne
    have hub : (-v).toNat < 2 ^ 31 + 1 := by omega
    have hp := parse_natToDecimalBytes (B := 2 ^ 31 + 1) (-v).toNat hub
    rw [hbt] at hp
    rw [hbt]
    simp only [i32FromStrRadix10, if_true]
    rw [hp, Option.map_some']
    rw [if_neg (by omega : ¬ (45 : Nat) = 43)]
    simp only [Option.some.injEq]
    omega
  · have hne := natToDecimalBytes_ne_nil v.toNat
    obtain ⟨b0, t, hbt⟩ := List.exists_cons_of_ne_nil hne
    have hb0 : 48 ≤ b0 ∧ b0 ≤ 57 := natToDecimalBytes_mem (by rw [hbt]; exact List.mem_cons_self _ _)
    have hub : v.toNat < 2 ^ 31 := by omega
    have hp := parse_natToDecimalBytes (B := 2 ^ 31) v.toNat hub
    rw [hbt] at hp
    rw [hbt]
    simp only [i32FromStrRadix10]
    rw [if_neg (by omega : ¬ b0 = 43), if_neg (by omega : ¬ b0 = 45)]
    rw [hp, Option.map_some']
    simp only [Option.some.injEq]
    omega

theorem i32ToString_mem {v : Int} {b : Nat} (hb : b ∈ i32ToString v) :
    b = 45 ∨ (48 ≤ b ∧ b ≤ 57) := by
  unfold i32ToString at hb
  split_ifs at hb with h
  · rcases List.mem_cons.mp hb with h2 | h2
    · left; exact h2
    · right; exact natToDecimalBytes_mem h2
  · right; exact natToDecimalBytes_mem hb

theorem i32ToString_length {v : Int} (h1 : -(2 ^ 31) ≤ v) (h2 : v < 2 ^ 31) :
    (i32ToString v).length < 2 ^ 16 := by
  unfold i32ToString
  split_ifs with h
  · have hx : (-v).toNat < 10 ^ 10 := by omega
    have := natToDecimalBytes_length 10 (-v).toNat hx
    simp only [List.length_cons]
    omega
  · have hx : v.toNat < 10 ^ 10 := by omega
    have := natToDecimalBytes_length 10 v.toNat hx
    omega

theorem natToHexPad_length : ∀ (w n : Nat), (natToHexPad n w).length = w := by
  intro w
  induction w with
  | zero => intro n; rfl
  | succ j ih =>
    intro n
    rw [natToHexPad]
    simp [ih]

theorem natToHexPad_mem : ∀ (w n b : Nat), b ∈ natToHexPad n w →
    (48 ≤ b ∧ b ≤ 57) ∨ (97 ≤ b ∧ b ≤ 102) := by
  intro w
  induction w with
  | zero => intro n b hb; cases hb
  | succ j ih =>
    intro n b hb
    rw [natToHexPad] at hb
    rcases List.mem_append.mp hb with h | h
    · exact ih (n / 16) b h
    · have hb2 : b = hexDigitByte (n % 16) := by simpa using h
      subst hb2
      unfold hexDigitByte
      have hm : n % 16 < 16 := Nat.mod_lt _ (by omega)
      split_ifs with hd
      · left; omega
      · right; omega

theorem parse_natToHexPad {B : Nat} : ∀ (w n a : Nat), n < 16 ^ w → a * 16 ^ w + n < B →
    parseRadixDigits 16 B (natToHexPad n w) a = some (a * 16 ^ w + n) := by
  intro w
  induction w with
  | zero =>
    intro n a h1 h2
    have hn : n = 0 := by simpa using h1
    subst hn
    simp [natToHexPad, parseRadixDigits]
  | succ j ih =>
    intro n a h1 h2
    rw [natToHexPad, parseRadixDigits_append]
    have hpow : 16 ^ (j + 1) = 16 ^ j * 16 := Nat.pow_succ 16 j
    have hE : a * 16 ^ (j + 1) = a * 16 ^ j * 16 := by rw [hpow]; ring
    have hdiv : n / 16 < 16 ^ j := by omega
    have hstep : a * 16 ^ j + n / 16 < B := by omega
    rw [ih (n / 16) a hdiv hstep]
    have hm : n % 16 < 16 := Nat.mod_lt _ (by omega)
    simp only [parseRadixDigits, toDigit_hexDigitByte hm]
    have h3 : (a * 16 ^ j + n / 16) * 16 + n % 16 = a * 16 ^ (j + 1) + n := by omega
    rw [if_pos (by omega), h3]

theorem uuidToString_length (v : Nat) : (uuidToString v).length = 36 := by
  simp [uuidToString, natToHexPad_length]

theorem uuidToString_mem {v b : Nat} (hb : b ∈ uuidToString v) : b < 128 := by
  unfold uuidToString at hb
  simp only [List.mem_append, List.mem_singleton] at hb
  have hx : ∀ m w : Nat, b ∈ natToHexPad m w → b < 128 := by
    intro m w h
    rcases natToHexPad_mem w m b h with h2 | h2 <;> omega
  rcases hb with ((((((((h | h) | h) | h) | h) | h) | h) | h) | h)
  all_goals first
  | exact hx _ _ h
  | omega

theorem uuidFromStr_uuidToString {v : Nat} (hv : v < 2 ^ 128) :
    uuidFromStr (uuidToString v) = Except.ok v := by
  have hA : (natToHexPad (v / 2 ^ 96 % 2 ^ 32) 8).length = 8 := natToHexPad_length 8 _
  have hB : (natToHexPad (v / 2 ^ 80 % 2 ^ 16) 4).length = 4 := natToHexPad_length 4 _
  have hC : (natToHexPad (v / 2 ^ 64 % 2 ^ 16) 4).length = 4 := natToHexPad_length 4 _
  have hD : (natToHexPad (v / 2 ^ 48 % 2 ^ 16) 4).length = 4 := natToHexPad_length 4 _
  have hE : (natToHexPad (v % 2 ^ 48) 12).length = 12 := natToHexPad_length 12 _
  have pA : parseRadixDigits 16 (2 ^ 128) (natToHexPad (v / 2 ^ 96 % 2 ^ 32) 8) 0
      = some (v / 2 ^ 96 % 2 ^ 32) := by
    have h := parse_natToHexPad (B := 2 ^ 128) 8 (v / 2 ^ 96 % 2 ^ 32) 0 (by omega) (by omega)
    simpa using h
  have pB := parse_natToHexPad (B := 2 ^ 128) 4 (v / 2 ^ 80 % 2 ^ 16)
    (v / 2 ^ 96 % 2 ^ 32) (by omega) (by omega)
  have pC := parse_natToHexPad (B := 2 ^ 128) 4 (v / 2 ^ 64 % 2 ^ 16)
    (v / 2 ^ 96 % 2 ^ 32 * 16 ^ 4 + v / 2 ^ 80 % 2 ^ 16) (by omega) (by omega)
  have pD := parse_natToHexPad (B := 2 ^ 128) 4 (v / 2 ^ 48 % 2 ^ 16)
    ((v / 2 ^ 96 % 2 ^ 32 * 16 ^ 4 + v / 2 ^ 80 % 2 ^ 16) * 16 ^ 4 + v / 2 ^ 64 % 2 ^ 16)
    (by omega) (by omega)
  have pE := parse_natToHexPad (B := 2 ^ 128) 12 (v % 2 ^ 48)
    (((v / 2 ^ 96 % 2 ^ 32 * 16 ^ 4 + v / 2 ^ 80 % 2 ^ 16) * 16 ^ 4 + v / 2 ^ 64 % 2 ^ 16)
      * 16 ^ 4 + v / 2 ^ 48 % 2 ^ 16) (by omega) (by omega)
  have hid : (((v / 2 ^ 96 % 2 ^ 32 * 16 ^ 4 + v / 2 ^ 80 % 2 ^ 16) * 16 ^ 4
      + v / 2 ^ 64 % 2 ^ 16) * 16 ^ 4 + v / 2 ^ 48 % 2 ^ 16) * 16 ^ 12 + v % 2 ^ 48 = v := by
    omega
  rw [hid] at pE
  have hAne : natToHexPad (v / 2 ^ 96 % 2 ^ 32) 8 ≠ [] := by
    intro h
    rw [h] at hA
    simp at hA
  obtain ⟨a0, t0, hcons⟩ := List.exists_cons_of_ne_nil hAne
  have ha0 : ¬ a0 = 43 := by
    have hm := natToHexPad_mem 8 (v / 2 ^ 96 % 2 ^ 32) a0 (by rw [hcons]; exact List.mem_cons_self _ _)
    omega
  obtain ⟨A, hgA⟩ : ∃ x, natToHexPad (v / 2 ^ 96 % 2 ^ 32) 8 = x := ⟨_, rfl⟩
  obtain ⟨B, hgB⟩ : ∃ x, natToHexPad (v / 2 ^ 80 % 2 ^ 16) 4 = x := ⟨_, rfl⟩
  obtain ⟨C, hgC⟩ : ∃ x, natToHexPad (v / 2 ^ 64 % 2 ^ 16) 4 = x := ⟨_, rfl⟩
  obtain ⟨D, hgD⟩ : ∃ x, natToHexPad (v / 2 ^ 48 % 2 ^ 16) 4 = x := ⟨_, rfl⟩
  obtain ⟨E, hgE⟩ : ∃ x, natToHexPad (v % 2 ^ 48) 12 = x := ⟨_, rfl⟩
  rw [hgA] at hA pA hcons
  rw [hgB] at hB pB
  rw [hgC] at hC pC
  rw [hgD] at hD pD
  rw [hgE] at hE pE
  have hu : uuidToString v = A ++ (45 :: (B ++ (45 :: (C ++ (45 :: (D ++ (45 :: E))))))) := by
    rw [← hgA, ← hgB, ← hgC, ← hgD, ← hgE]
    simp [uuidToString]
  rw [hu]
  have d8 : (A ++ (45 :: (B ++ (45 :: (C ++ (45 :: (D ++ (45 :: E)))))))).drop 8
      = 45 :: (B ++ (45 :: (C ++ (45 :: (D ++ (45 :: E)))))) := List.drop_left' hA
  have t8 : (A ++ (45 :: (B ++ (45 :: (C ++ (45 :: (D ++ (45 :: E)))))))).take 8
      = A := List.take_left' hA
  have d9 : (A ++ (45 :: (B ++ (45 :: (C ++ (45 :: (D ++ (45 :: E)))))))).drop 9
      = B ++ (45 :: (C ++ (45 :: (D ++ (45 :: E))))) := by
    have h' := List.drop_drop 1 8 (A ++ (45 :: (B ++ (45 :: (C ++ (45 :: (D ++ (45 :: E))))))))
    rw [d8] at h'
    simpa using h'.symm
  have d13 : (A ++ (45 :: (B ++ (45 :: (C ++ (45 :: (D ++ (45 :: E)))))))).drop 13
      = 45 :: (C ++ (45 :: (D ++ (45 :: E)))) := by
    have h' := List.drop_drop 4 9 (A ++ (45 :: (B ++ (45 :: (C ++ (45 :: (D ++ (45 :: E))))))))
    rw [d9, List.drop_left' hB] at h'
    simpa using h'.symm
  have d14 : (A ++ (45 :: (B ++ (45 :: (C ++ (45 :: (D ++ (45 :: E)))))))).drop 14
      = C ++ (45 :: (D ++ (45 :: E))) := by
    have h' := List.drop_drop 1 13 (A ++ (45 :: (B ++ (45 :: (C ++ (45 :: (D ++ (45 :: E))))))))
    rw [d13] at h'
    simpa using h'.symm
  have d18 : (A ++ (45 :: (B ++ (45 :: (C ++ (45 :: (D ++ (45 :: E)))))))).drop 18
      = 45 :: (D ++ (45 :: E)) := by
    have h' := List.drop_drop 4 14 (A ++ (45 :: (B ++ (45 :: (C ++ (45 :: (D ++ (45 :: E))))))))
    rw [d14, List.drop_left' hC] at h'
    simpa using h'.symm
  have d19 : (A ++ (45 :: (B ++ (45 :: (C ++ (45 :: (D ++ (45 :: E)))))))).drop 19
      = D ++ (45 :: E) := by
    have h' := List.drop_drop 1 18 (A ++ (45 :: (B ++ (45 :: (C ++ (45 :: (D ++ (45 :: E))))))))
    rw [d18] at h'
    simpa using h'.symm
  have d23 : (A ++ (45 :: (B ++ (45 :: (C ++ (45 :: (D ++ (45 :: E)))))))).drop 23
      = 45 :: E := by
    have h' := List.drop_drop 4 19 (A ++ (45 :: (B ++ (45 :: (C ++ (45 :: (D ++ (45 :: E))))))))
    rw [d19, List.drop_left' hD] at h'
    simpa using h'.symm
  have d24 : (A ++ (45 :: (B ++ (45 :: (C ++ (45 :: (D ++ (45 :: E)))))))).drop 24
      = E := by
    have h' := List.drop_drop 1 23 (A ++ (45 :: (B ++ (45 :: (C ++ (45 :: (D ++ (45 :: E))))))))
    rw [d23] at h'
    simpa using h'.symm
  have hlen : (A ++ (45 :: (B ++ (45 :: (C ++ (45 :: (D ++ (45 :: E)))))))).length = 36 := by
    simp [hA, hB, hC, hD, hE]
  have hascii : ∀ b ∈ A ++ (45 :: (B ++ (45 :: (C ++ (45 :: (D ++ (45 :: E))))))), b < 128 := by
    intro b hbm
    rw [← hu] at hbm
    exact uuidToString_mem hbm
  have hbnd : ∀ i : Nat, i ≤ 36 →
      isCharBoundary (A ++ (45 :: (B ++ (45 :: (C ++ (45 :: (D ++ (45 :: E)))))))) i = true := by
    intro i hi
    exact isCharBoundary_of_ascii hascii (by rw [hlen]; exact hi)
  unfold uuidFromStr
  rw [if_neg (by rw [hlen]; omega)]
  rw [if_neg (not_not_intro ⟨hbnd 8 (by omega), hbnd 9 (by omega)⟩)]
  rw [if_neg (not_not_intro (by rw [d8]; rfl))]
  rw [if_neg (not_not_intro ⟨hbnd 13 (by omega), hbnd 14 (by omega)⟩)]
  rw [if_neg (not_not_intro (by rw [d13]; rfl))]
  rw [if_neg (not_not_intro ⟨hbnd 18 (by omega), hbnd 19 (by omega)⟩)]
  rw [if_neg (not_not_intro (by rw [d18]; rfl))]
  rw [if_neg (not_not_intro ⟨hbnd 23 (by omega), hbnd 24 (by omega)⟩)]
  rw [if_neg (not_not_intro (by rw [d23]; rfl))]
  rw [t8, d9, d14, d19, d24]
  rw [List.take_left' hB, List.take_left' hC, List.take_left' hD]
  have hparse : u128FromStrRadix16 (A ++ B ++ C ++ D ++ E) = some v := by
    have hs : A ++ B ++ C ++ D ++ E = a0 :: (t0 ++ B ++ C ++ D ++ E) := by
      rw [hcons]
      simp
    rw [hs]
    simp only [u128FromStrRadix16]
    rw [if_neg ha0]
    rw [← hs]
    have hassoc : A ++ B ++ C ++ D ++ E = A ++ (B ++ (C ++ (D ++ E))) := by
      simp [List.append_assoc]
    rw [hassoc]
    rw [parseRadixDigits_append, pA]
    dsimp only
    rw [parseRadixDigits_append, pB]
    dsimp only
    rw [parseRadixDigits_append, pC]
    dsimp only
    rw [parseRadixDigits_append, pD]
    dsimp only
    rw [pE]
  rw [hparse]

theorem collectTracks_entries : ∀ (entries : List (Nat × Nat)) (tail : List Nat),
    (∀ p ∈ entries, p.1 < 2 ^ 32 ∧ p.2 < 2 ^ 32) →
    collectTracks entries.length
      ((entries.map (fun p => writeHistoryToken (i32ToString (u32AsI32 p.1)) p.2)).flatten ++ tail)
      = Except.ok entries := by
  intro entries
  induction entries with
  | nil => intro tail hb; rfl
  | cons p es ih =>
    intro tail hb
    obtain ⟨k, f⟩ := p
    have hk : k < 2 ^ 32 := (hb (k, f) (List.mem_cons_self _ _)).1
    have hf : f < 2 ^ 32 := (hb (k, f) (List.mem_cons_self _ _)).2
    have hlb := u32AsI32_lb hk
    have hub := u32AsI32_ub hk
    have hslen : (i32ToString (u32AsI32 k)).length < 2 ^ 16 := i32ToString_length hlb hub
    have hsv : utf8Valid (i32ToString (u32AsI32 k)) = true := by
      apply utf8Valid_of_ascii
      intro b hbm
      rcases i32ToString_mem hbm with h | h <;> omega
    have hbytes : ((((k, f) :: es).map
          (fun p => writeHistoryToken (i32ToString (u32AsI32 p.1)) p.2)).flatten ++ tail)
        = writeHistoryToken (i32ToString (u32AsI32 k)) f ++
          ((es.map (fun p => writeHistoryToken (i32ToString (u32AsI32 p.1)) p.2)).flatten ++ tail) := by
      simp [List.append_assoc]
    rw [List.length_cons, hbytes]
    have hnext := nextToken_writeHistoryToken (i32ToString (u32AsI32 k)) f
      ((es.map (fun p => writeHistoryToken (i32ToString (u32AsI32 p.1)) p.2)).flatten ++ tail)
      hslen hsv
    rw [Nat.mod_eq_of_lt hf] at hnext
    simp only [collectTracks, hnext]
    rw [i32ToString_roundtrip hlb hub]
    rw [ih tail (fun q hq => hb q (List.mem_cons_of_mem _ hq))]
    dsimp only
    rw [i32AsU32_u32AsI32 hk]

theorem getFeedHistory_writeFeedHistory {id : Nat} (hid : id < 2 ^ 128)
    (entries : List (Nat × Nat)) (hlen : entries.length < 2 ^ 32)
    (hb : ∀ p ∈ entries, p.1 < 2 ^ 32 ∧ p.2 < 2 ^ 32) :
    getFeedHistory id (writeFeedHistory id entries) = Except.ok entries := by
  have hsv : utf8Valid (uuidToString id) = true := by
    apply utf8Valid_of_ascii
    intro b hbm
    exact uuidToString_mem hbm
  have hslen : (uuidToString id).length < 2 ^ 16 := by
    rw [uuidToString_length]
    omega
  have hw : writeFeedHistory id entries
      = writeHistoryToken (uuidToString id) entries.length ++
        (entries.map (fun p => writeHistoryToken (i32ToString (u32AsI32 p.1)) p.2)).flatten := rfl
  have hnext := nextToken_writeHistoryToken (uuidToString id) entries.length
    ((entries.map (fun p => writeHistoryToken (i32ToString (u32AsI32 p.1)) p.2)).flatten)
    hslen hsv
  rw [Nat.mod_eq_of_lt hlen] at hnext
  rw [hw]
  rw [getFeedHistory_of_some hnext]
  rw [uuidFromStr_uuidToString hid]
  dsimp only
  rw [if_pos rfl]
  have := collectTracks_entries entries [] hb
  rw [List.append_nil] at this
  exact this

theorem tokenSeq_skipTokens : ∀ (n : Nat) (bytes : List Nat),
    tokenSeq (skipTokens n bytes) = dropTokens n (tokenSeq bytes) := by
  intro n
  induction n with
  | zero => intro bytes; rfl
  | succ m ih =>
    intro bytes
    rcases hempty : bytes with _ | ⟨b, bs⟩
    · have h1 : skipTokens (m + 1) [] = [] := rfl
      rw [h1, tokenSeq_nil]
      rfl
    rcases h : nextToken (b :: bs) with ⟨res, rest⟩
    cases res with
    | none =>
      have hs : skipTokens (m + 1) (b :: bs) = rest := by simp [skipTokens, h]
      rw [hs, tokenSeq_of_none (by simp) h]
      rfl
    | some t =>
      have hs : skipTokens (m + 1) (b :: bs) = skipTokens m rest := by simp [skipTokens, h]
      rw [hs, tokenSeq_of_some h, ih rest]
      rfl

theorem collectTracks_eq_spec : ∀ (n : Nat) (bytes : List Nat),
    collectTracks n bytes = collectTracksSpec n (tokenSeq bytes) := by
  intro n
  induction n with
  | zero => intro bytes; rfl
  | succ m ih =>
    intro bytes
    rcases hempty : bytes with _ | ⟨b, bs⟩
    · rw [tokenSeq_nil]
      rfl
    rcases h : nextToken (b :: bs) with ⟨res, rest⟩
    cases res with
    | none =>
      rw [tokenSeq_of_none (by simp) h]
      simp [collectTracks, h, collectTracksSpec]
    | some t =>
      obtain ⟨s, d⟩ := t
      rw [tokenSeq_of_some h]
      simp only [collectTracks, h, collectTracksSpec, parseHistEntry]
      cases hp : i32FromStrRadix10 s with
      | none => simp [hp]
      | some v =>
        rw [ih rest]
        simp only [hp]
        cases hm : collectTracksSpec m (tokenSeq rest) with
        | error e => simp [hm]
        | ok l => simp [hm]

theorem findFeedHistorySpec_nil (feed : Nat) : findFeedHistorySpec feed [] = Except.ok [] := by
  rw [findFeedHistorySpec]

theorem findFeedHistorySpec_none (feed : Nat) (rest : List (Option (List Nat × Nat))) :
    findFeedHistorySpec feed (none :: rest) = Except.ok [] := by
  rw [findFeedHistorySpec]

theorem findFeedHistorySpec_cons (feed : Nat) (idStr : List Nat) (count : Nat)
    (rest : List (Option (List Nat × Nat))) :
    findFeedHistorySpec feed (some (idStr, count) :: rest) =
      (match uuidFromStr idStr with
       | Except.error e => Except.error e
       | Except.ok id =>
         if id = feed then collectTracksSpec count rest
         else findFeedHistorySpec feed (dropTokens count rest)) := by
  rw [findFeedHistorySpec]

theorem getFeedHistory_eq_spec (feed : Nat) (bytes : List Nat) :
    getFeedHistory feed bytes = findFeedHistorySpec feed (tokenSeq bytes) := by
  generalize hn : bytes.length = n
  induction n using Nat.strong_induction_on generalizing bytes with
  | _ n ih =>
    subst hn
    rcases hempty : bytes with _ | ⟨b, bs⟩
    · rw [getFeedHistory_of_none (show nextToken [] = (none, []) from rfl), tokenSeq_nil,
        findFeedHistorySpec_nil]
    rcases h : nextToken (b :: bs) with ⟨res, rest⟩
    cases res with
    | none =>
      rw [getFeedHistory_of_none h, tokenSeq_of_none (by simp) h, findFeedHistorySpec_none]
    | some t =>
      obtain ⟨s, d⟩ := t
      rw [getFeedHistory_of_some h, tokenSeq_of_some h]
      rw [findFeedHistorySpec_cons]
      cases hu : uuidFromStr s with
      | error e => rfl
      | ok id =>
        by_cases hf : id = feed
        · subst hf
          dsimp only
          rw [if_pos rfl, if_pos rfl]
          exact collectTracks_eq_spec d rest
        · dsimp only
          rw [if_neg hf, if_neg hf]
          have hlen : (skipTokens d rest).length < bytes.length := by
            rw [hempty]
            exact lt_of_le_of_lt (skipTokens_length_le d rest) (nextToken_some_lt h)
          rw [ih (skipTokens d rest).length hlen (skipTokens d rest) rfl]
          rw [tokenSeq_skipTokens]

theorem bpSaveEntries_eq_qualifying (env : BPEnv) (id : Nat)
    (hupd : ∀ tid pl pr, env.updateRes id tid pl pr = Except.ok ()) :
    ∀ tracks : List Track, bpSaveEntries env id tracks
      = Except.ok (qualifyingEntries env id tracks) := by
  intro tracks
  induction tracks with
  | nil => rfl
  | cons t ts ih =>
    have hok : (if (env.trackRow id (guidToTrackId t.guid)).isOk = true
        then env.updateRes id (guidToTrackId t.guid) (t.playing_status == PlayingStatus.Played) t.progress
        else Except.ok ()) = Except.ok () := by
      split
      · exact hupd _ _ _
      · rfl
    by_cases hcond : ((t.playing_status == PlayingStatus.Played)
        || (env.trackRow id (guidToTrackId t.guid)).isOk) = true
    · have hst : bpSaveTrack env id t = Except.ok (some (guidToTrackId t.guid,
          if (t.playing_status == PlayingStatus.Played) = true then 65 else 64)) := by
        unfold bpSaveTrack
        dsimp only
        rw [hok, if_pos hcond]
      have hq : qualifyingEntries env id (t :: ts) = (guidToTrackId t.guid,
          if (t.playing_status == PlayingStatus.Played) = true then 65 else 64)
            :: qualifyingEntries env id ts := by
        unfold qualifyingEntries
        rw [List.filterMap_cons]
        dsimp only
        rw [if_pos hcond]
      rw [hq]
      unfold bpSaveEntries
      rw [hst, ih]
    · have hst : bpSaveTrack env id t = Except.ok none := by
        unfold bpSaveTrack
        dsimp only
        rw [hok, if_neg hcond]
      have hq : qualifyingEntries env id (t :: ts) = qualifyingEntries env id ts := by
        unfold qualifyingEntries
        rw [List.filterMap_cons]
        dsimp only
        rw [if_neg hcond]
      rw [hq]
      unfold bpSaveEntries
      rw [hst, ih]

theorem bpBuildHist_eq (env : BPEnv) (fid : Podcast → Nat)
    (hupd : ∀ id tid pl pr, env.updateRes id tid pl pr = Except.ok ()) :
    ∀ podcasts : List Podcast,
    (∀ p ∈ podcasts, ∃ s u, env.feeds p.url = Except.ok (s, u) ∧ uuidFromStr s = Except.ok (fid p)) →
    bpBuildHist env podcasts = Except.ok ((podcasts.filterMap (fun p =>
      if qualifyingEntries env (fid p) p.tracks = [] then none
      else some (writeFeedHistory (fid p) (qualifyingEntries env (fid p) p.tracks)))).flatten) := by
  intro podcasts
  induction podcasts with
  | nil => intro _; rfl
  | cons p ps ih =>
    intro hres
    obtain ⟨s, u, hfeed, huuid⟩ := hres p (List.mem_cons_self _ _)
    have hsp : bpSavePodcast env p =
        Except.ok (if qualifyingEntries env (fid p) p.tracks = [] then []
          else writeFeedHistory (fid p) (qualifyingEntries env (fid p) p.tracks)) := by
      unfold bpSavePodcast
      rw [hfeed]
      dsimp only
      rw [huuid]
      dsimp only
      rw [bpSaveEntries_eq_qualifying env (fid p) (hupd (fid p))]
      dsimp only
      by_cases hq : qualifyingEntries env (fid p) p.tracks = []
      · rw [if_neg (by rw [hq]; simp), if_pos hq]
      · rw [if_pos (by
          have := List.length_pos.mpr hq
          omega), if_neg hq]
    unfold bpBuildHist
    rw [hsp, ih (fun q hq => hres q (List.mem_cons_of_mem _ hq))]
    rw [List.filterMap_cons]
    by_cases hq : qualifyingEntries env (fid p) p.tracks = []
    · rw [if_pos hq]
      dsimp only
      rw [if_pos hq]
      rw [List.nil_append]
    · rw [if_neg hq]
      dsimp only
      rw [if_neg hq]
      rw [List.flatten_cons]

theorem copyMembers_none_spec (hist db : List Nat) : ∀ (members : List (String × List Nat)) (dbUsed : Bool),
    (copyMembers hist db members dbUsed none).2 = none ∧
    (copyMembers hist db members dbUsed none).1.length = members.length ∧
    ∀ (i : Nat) (name : String) (bytes : List Nat), members.get? i = some (name, bytes) →
      (copyMembers hist db members dbUsed none).1.get? i = some (name,
        rewriteContentSpec hist db bytes name
          (dbUsed || (members.take i).any (fun m => decide (m.1 = DB_FILE)))) := by
  intro members
  induction members with
  | nil =>
    intro dbUsed
    refine ⟨rfl, rfl, ?_⟩
    intro i name bytes h
    cases i <;> cases h
  | cons m rest ih =>
    intro dbUsed
    obtain ⟨name0, bytes0⟩ := m
    obtain ⟨ih1, ih2, ih3⟩ := ih (dbUsed || decide (name0 = DB_FILE))
    have hstep : copyMembers hist db ((name0, bytes0) :: rest) dbUsed none
        = ((name0,
            if name0 = HISTORY_FILE then hist
            else if name0 = DB_FILE then (if dbUsed then [] else db)
            else bytes0) ::
            (copyMembers hist db rest (dbUsed || decide (name0 = DB_FILE)) none).1,
          (copyMembers hist db rest (dbUsed || decide (name0 = DB_FILE)) none).2) := by
      rfl
    refine ⟨?_, ?_, ?_⟩
    · rw [hstep]
      exact ih1
    · rw [hstep]
      simp only [List.length_cons, ih2]
    · intro i name bytes h
      cases i with
      | zero =>
        simp only [List.get?] at h
        injection h with h2
        injection h2 with ha hb
        subst ha
        subst hb
        rw [hstep]
        simp only [List.get?, List.take_zero, List.any_nil, Bool.or_false]
        rfl
      | succ j =>
        simp only [List.get?] at h
        rw [hstep]
        simp only [List.get?]
        have := ih3 j name bytes h
        rw [this]
        congr 2
        rw [List.take_succ_cons]
        simp only [List.any_cons]
        rw [Bool.or_assoc]

theorem bpSave_no_partial_of_err (env : BPEnv) (podcasts : List Podcast) (e : Err)
    (h : (bpSave env podcasts none).2 = some e) : (bpSave env podcasts none).1 = [] := by
  unfold bpSave at h ⊢
  cases h1 : bpBuildHist env podcasts with
  | error e2 => rfl
  | ok hist =>
    cases h2 : env.intoFile with
    | error e3 => rfl
    | ok db =>
      rw [h1, h2] at h
      dsimp only at h
      have := (copyMembers_none_spec hist db env.members false).1
      rw [this] at h
      cases h

theorem pcSave_no_partial_of_err (env : PCEnv) (podcasts : List Podcast) (now : Int) (e : Err)
    (h : (pcSave env podcasts now none).2 = some e) : (pcSave env podcasts now none).1 = [] := by
  unfold pcSave at h ⊢
  cases h1 : pcSaveAll env now podcasts with
  | error e2 => rfl
  | ok u =>
    cases h2 : env.intoFile with
    | error e3 => rfl
    | ok db =>
      rw [h1, h2] at h
      dsimp only at h
      cases h

theorem populateTrack_progress_nonneg (row : Except SqlErr (Bool × Int)) (histFlags : Option Nat)
    (t : Track) : 0 ≤ (populateTrack row histFlags t).1.progress := by
  unfold populateTrack
  cases row.toOption with
  | none => simp
  | some pr =>
    obtain ⟨pl, pt⟩ := pr
    dsimp only
    by_cases hpt : pt ≥ 0
    · rw [if_pos hpt]
      simpa using hpt
    · rw [if_neg hpt]
      simp

theorem bpPopulate_progress_nonneg (env : BPEnv) (p p2 : Podcast)
    (h : bpPopulate env p = Except.ok p2) : ∀ t ∈ p2.tracks, 0 ≤ t.progress := by
  unfold bpPopulate at h
  cases h1 : env.feeds p.url with
  | error e => rw [h1] at h; cases h
  | ok r =>
    obtain ⟨idStr, unread⟩ := r
    rw [h1] at h
    dsimp only at h
    cases h2 : uuidFromStr idStr with
    | error e => rw [h2] at h; cases h
    | ok id =>
      rw [h2] at h
      dsimp only at h
      cases h3 : findMember env.members HISTORY_FILE with
      | error e => rw [h3] at h; cases h
      | ok histBytes =>
        rw [h3] at h
        dsimp only at h
        cases h4 : getFeedHistory id histBytes with
        | error e => rw [h4] at h; cases h
        | ok history =>
          rw [h4] at h
          dsimp only at h
          injection h with h5
          subst h5
          intro t ht
          simp only [List.mem_map] at ht
          obtain ⟨t0, ht0, ht1⟩ := ht
          rw [← ht1]
          exact populateTrack_progress_nonneg _ _ _

theorem pcPopulateTracks_progress_nonneg (env : PCEnv) (id : Nat) :
    ∀ (ts l : List Track), (∀ t ∈ ts, 0 ≤ t.progress) →
    pcPopulateTracks env id ts = Except.ok l → ∀ t ∈ l, 0 ≤ t.progress := by
  intro ts
  induction ts with
  | nil =>
    intro l _ h
    injection h with h2
    subst h2
    intro t ht
    cases ht
  | cons t0 rest ih =>
    intro l hin h
    unfold pcPopulateTracks at h
    cases h1 : pcPopulateTrack env id t0 with
    | error e => rw [h1] at h; cases h
    | ok t2 =>
      rw [h1] at h
      cases h2 : pcPopulateTracks env id rest with
      | error e => rw [h2] at h; cases h
      | ok l2 =>
        rw [h2] at h
        injection h with h3
        subst h3
        intro t ht
        rcases List.mem_cons.mp ht with h4 | h4
        · subst h4
          unfold pcPopulateTrack at h1
          cases h5 : env.episodeRow id t0.url with
          | ok r =>
            obtain ⟨st, pu⟩ := r
            rw [h5] at h1
            dsimp only at h1
            cases h6 : pcDecodeStatus st with
            | error e => rw [h6] at h1; cases h1
            | ok ps =>
              rw [h6] at h1
              injection h1 with h7
              subst h7
              simp only
              exact le_max_right _ _
          | error e =>
            rw [h5] at h1
            cases e with
            | queryReturnedNoRows =>
              injection h1 with h7
              subst h7
              exact hin t0 (List.mem_cons_self _ _)
            | other => cases h1
        · exact ih l2 (fun q hq => hin q (List.mem_cons_of_mem _ hq)) h2 t h4

theorem pcPopulateTracks_ok_rows (env : PCEnv) (id : Nat) :
    ∀ (ts l : List Track), pcPopulateTracks env id ts = Except.ok l →
    ∀ t ∈ ts, ∀ st pu : Int, env.episodeRow id t.url = Except.ok (st, pu) →
      st = 0 ∨ st = 1 ∨ st = 2 := by
  intro ts
  induction ts with
  | nil =>
    intro l _ t ht
    cases ht
  | cons t0 rest ih =>
    intro l h t ht st pu hrow
    unfold pcPopulateTracks at h
    cases h1 : pcPopulateTrack env id t0 with
    | error e => rw [h1] at h; cases h
    | ok t2 =>
      rw [h1] at h
      cases h2 : pcPopulateTracks env id rest with
      | error e => rw [h2] at h; cases h
      | ok l2 =>
        rcases List.mem_cons.mp ht with h4 | h4
        · subst h4
          unfold pcPopulateTrack at h1
          rw [hrow] at h1
          dsimp only at h1
          cases h6 : pcDecodeStatus st with
          | error e => rw [h6] at h1; cases h1
          | ok ps =>
            unfold pcDecodeStatus at h6
            by_cases e0 : st = 0
            · left; exact e0
            · rw [if_neg e0] at h6
              by_cases e1 : st = 1
              · right; left; exact e1
              · rw [if_neg e1] at h6
                by_cases e2 : st = 2
                · right; right; exact e2
                · rw [if_neg e2] at h6
                  cases h6
        · exact ih l2 h2 t h4 st pu hrow

theorem pcPopulateTracks_err_char (env : PCEnv) (id : Nat) :
    ∀ ts : List Track, (∀ t ∈ ts, env.episodeRow id t.url ≠ Except.error SqlErr.other) →
    (∃ l, pcPopulateTracks env id ts = Except.ok l) ∨
      (pcPopulateTracks env id ts = Except.error Err.invalidPlayingStatus) := by
  intro ts
  induction ts with
  | nil =>
    intro _
    exact Or.inl ⟨[], rfl⟩
  | cons t0 rest ih =>
    intro hok
    have hstep : (∃ t2, pcPopulateTrack env id t0 = Except.ok t2) ∨
        pcPopulateTrack env id t0 = Except.error Err.invalidPlayingStatus := by
      unfold pcPopulateTrack
      cases h5 : env.episodeRow id t0.url with
      | ok r =>
        obtain ⟨st, pu⟩ := r
        dsimp only
        cases h6 : pcDecodeStatus st with
        | error e =>
          right
          have he : e = Err.invalidPlayingStatus := by
            unfold pcDecodeStatus at h6
            split_ifs at h6 <;> first
            | (injection h6 with h7; exact h7.symm)
            | cases h6
          subst he
          rfl
        | ok ps => exact Or.inl ⟨_, rfl⟩
      | error e =>
        cases e with
        | queryReturnedNoRows => exact Or.inl ⟨_, rfl⟩
        | other => exact absurd h5 (hok t0 (List.mem_cons_self _ _))
    rcases hstep with ⟨t2, h1⟩ | h1
    · rcases ih (fun q hq => hok q (List.mem_cons_of_mem _ hq)) with ⟨l2, h2⟩ | h2
      · left
        refine ⟨t2 :: l2, ?_⟩
        unfold pcPopulateTracks
        rw [h1, h2]
      · right
        unfold pcPopulateTracks
        rw [h1, h2]
    · right
      unfold pcPopulateTracks
      rw [h1]

theorem pcPopulateTracks_bad_not_ok (env : PCEnv) (id : Nat)
    (ts : List Track) (t : Track) (ht : t ∈ ts) (st pu : Int)
    (hrow : env.episodeRow id t.url = Except.ok (st, pu))
    (hbad : ¬(st = 0 ∨ st = 1 ∨ st = 2)) :
    ∀ l, pcPopulateTracks env id ts ≠ Except.ok l := by
  intro l h
  exact hbad (pcPopulateTracks_ok_rows env id ts l h t ht st pu hrow)

theorem pcDecodeStatus_error_bad {st : Int} {e : Err} (h : pcDecodeStatus st = Except.error e) :
    ¬(st = 0 ∨ st = 1 ∨ st = 2) := by
  unfold pcDecodeStatus at h
  split_ifs at h with h0 h1 h2
  intro hc
  rcases hc with hc | hc | hc
  · exact h0 hc
  · exact h1 hc
  · exact h2 hc

theorem pcDecodeStatus_good {st : Int} (h : st = 0 ∨ st = 1 ∨ st = 2) :
    ∃ ps, pcDecodeStatus st = Except.ok ps := by
  unfold pcDecodeStatus
  rcases h with h | h | h <;> subst h
  · exact ⟨PlayingStatus.Unplayed, rfl⟩
  · exact ⟨PlayingStatus.Playing, rfl⟩
  · exact ⟨PlayingStatus.Played, rfl⟩

theorem pcPopulateTracks_error_bad (env : PCEnv) (id : Nat) :
    ∀ (ts : List Track) (e : Err),
    (∀ t ∈ ts, env.episodeRow id t.url ≠ Except.error SqlErr.other) →
    pcPopulateTracks env id ts = Except.error e →
    ∃ t ∈ ts, ∃ st pu : Int, env.episodeRow id t.url = Except.ok (st, pu)
      ∧ ¬(st = 0 ∨ st = 1 ∨ st = 2) := by
  intro ts
  induction ts with
  | nil =>
    intro e _ h
    cases h
  | cons t0 rest ih =>
    intro e hok h
    unfold pcPopulateTracks at h
    cases h1 : pcPopulateTrack env id t0 with
    | error e2 =>
      unfold pcPopulateTrack at h1
      cases h5 : env.episodeRow id t0.url with
      | ok r =>
        obtain ⟨st, pu⟩ := r
        rw [h5] at h1
        dsimp only at h1
        cases h6 : pcDecodeStatus st with
        | error e3 =>
          exact ⟨t0, List.mem_cons_self _ _, st, pu, h5, pcDecodeStatus_error_bad h6⟩
        | ok ps =>
          rw [h6] at h1
          cases h1
      | error e3 =>
        rw [h5] at h1
        cases e3 with
        | queryReturnedNoRows => cases h1
        | other => exact absurd h5 (hok t0 (List.mem_cons_self _ _))
    | ok t2 =>
      rw [h1] at h
      cases h2 : pcPopulateTracks env id rest with
      | error e2 =>
        rw [h2] at h
        obtain ⟨t, ht, rest2⟩ := ih e2 (fun q hq => hok q (List.mem_cons_of_mem _ hq)) h2
        exact ⟨t, List.mem_cons_of_mem _ ht, rest2⟩
      | ok l2 =>
        rw [h2] at h
        cases h

theorem take_one_eq_singleton_iff (l : List Nat) (a : Nat) :
    l.take 1 = [a] ↔ l.get? 0 = some a := by
  cases l with
  | nil => simp
  | cons b t => simp [List.take]

theorem uuidShape_iff_code (s : List Nat) :
    uuidShape s ↔ (s.length = 36 ∧ (s.drop 8).take 1 = [45] ∧ (s.drop 13).take 1 = [45] ∧
      (s.drop 18).take 1 = [45] ∧ (s.drop 23).take 1 = [45]) := by
  unfold uuidShape
  have h : ∀ n : Nat, (s.drop n).take 1 = [45] ↔ s.get? n = some 45 := by
    intro n
    rw [take_one_eq_singleton_iff, List.get?_drop]
    simp
  rw [h 8, h 13, h 18, h 23]

theorem hexValFrom_all_hex_parse {B : Nat} : ∀ (l : List Nat) (a : Nat),
    l.all isHexByte = true →
    (l.foldl (fun x b => x * 16 + (toDigit 16 b).getD 0) a) < B →
    parseRadixDigits 16 B l a = some (l.foldl (fun x b => x * 16 + (toDigit 16 b).getD 0) a) := by
  intro l
  induction l with
  | nil => intro a _ _; rfl
  | cons b rest ih =>
    intro a hall hb
    simp only [List.all_cons, Bool.and_eq_true] at hall
    obtain ⟨hb1, hall2⟩ := hall
    unfold isHexByte at hb1
    obtain ⟨d, hd⟩ := Option.isSome_iff_exists.mp hb1
    have hmono : ∀ (r : List Nat) (x : Nat), x ≤ r.foldl (fun y c => y * 16 + (toDigit 16 c).getD 0) x := by
      intro r
      induction r with
      | nil => intro x; exact le_refl x
      | cons c cs ihr =>
        intro x
        simp only [List.foldl_cons]
        exact le_trans (by omega) (ihr (x * 16 + (toDigit 16 c).getD 0))
    simp only [List.foldl_cons] at hb ⊢
    rw [hd] at hb ⊢
    simp only [Option.getD_some] at hb ⊢
    simp only [parseRadixDigits, hd]
    rw [if_pos ?hcond]
    case hcond =>
      have hm := hmono rest (a * 16 + d)
      omega
    exact ih _ hall2 hb

theorem parse_not_all_hex {B : Nat} : ∀ (l : List Nat) (a : Nat),
    l.all isHexByte = false → parseRadixDigits 16 B l a = none := by
  intro l
  induction l with
  | nil => intro a h; cases h
  | cons b rest ih =>
    intro a hall
    simp only [List.all_cons, Bool.and_eq_false_iff] at hall
    cases hd : toDigit 16 b with
    | none => simp [parseRadixDigits, hd]
    | some d =>
      simp only [parseRadixDigits, hd]
      split
      · rcases hall with h | h
        · unfold isHexByte at h
          rw [hd] at h
          cases h
        · exact ih _ h
      · rfl

theorem hexValFrom_lt : ∀ (l : List Nat) (a : Nat), l.all isHexByte = true →
    l.foldl (fun x b => x * 16 + (toDigit 16 b).getD 0) a < (a + 1) * 16 ^ l.length := by
  intro l
  induction l with
  | nil =>
    intro a _
    simp
  | cons b rest ih =>
    intro a hall
    simp only [List.all_cons, Bool.and_eq_true] at hall
    obtain ⟨hb1, hall2⟩ := hall
    have hd : (toDigit 16 b).getD 0 < 16 := by
      unfold isHexByte at hb1
      obtain ⟨d, hdd⟩ := Option.isSome_iff_exists.mp hb1
      rw [hdd]
      simp only [Option.getD_some]
      unfold toDigit at hdd
      split_ifs at hdd <;> (injection hdd with h2; omega)
    simp only [List.foldl_cons, List.length_cons]
    have := ih (a * 16 + (toDigit 16 b).getD 0) hall2
    have hpow : 16 ^ (rest.length + 1) = 16 ^ rest.length * 16 := Nat.pow_succ 16 rest.length
    have hmul : (a * 16 + (toDigit 16 b).getD 0 + 1) * 16 ^ rest.length
        ≤ (a + 1) * (16 ^ rest.length * 16) := by
      have h16 : a * 16 + (toDigit 16 b).getD 0 + 1 ≤ (a + 1) * 16 := by omega
      calc (a * 16 + (toDigit 16 b).getD 0 + 1) * 16 ^ rest.length
          ≤ (a + 1) * 16 * 16 ^ rest.length := Nat.mul_le_mul_right _ h16
        _ = (a + 1) * (16 ^ rest.length * 16) := by ring
    calc List.foldl (fun x b => x * 16 + (toDigit 16 b).getD 0) (a * 16 + (toDigit 16 b).getD 0) rest
        < (a * 16 + (toDigit 16 b).getD 0 + 1) * 16 ^ rest.length := this
      _ ≤ (a + 1) * (16 ^ rest.length * 16) := hmul
      _ = (a + 1) * 16 ^ (rest.length + 1) := by rw [hpow]

theorem hexVal_lt (l : List Nat) (hall : l.all isHexByte = true) : hexVal l < 16 ^ l.length := by
  have := hexValFrom_lt l 0 hall
  unfold hexVal
  omega

theorem parse16_eq_hexSpec (d : List Nat) (hlen : d.length ≤ 32) :
    u128FromStrRadix16 d = hexSpecParse d := by
  have hparse : ∀ l : List Nat, l.length ≤ 32 → parseRadixDigits 16 (2 ^ 128) l 0 =
      (if l.all isHexByte = true then some (hexVal l) else none) := by
    intro l hl
    by_cases hall : l.all isHexByte = true
    · rw [if_pos hall]
      have hb : hexVal l < 2 ^ 128 := by
        have h1 := hexVal_lt l hall
        have h2 : (16 : Nat) ^ l.length ≤ 16 ^ 32 := Nat.pow_le_pow_right (by omega) hl
        have h3 : (16 : Nat) ^ 32 = 2 ^ 128 := by norm_num
        omega
      exact hexValFrom_all_hex_parse l 0 hall hb
    · rw [if_neg hall]
      exact parse_not_all_hex l 0 (by revert hall; cases l.all isHexByte <;> simp)
  cases d with
  | nil => rfl
  | cons b rest =>
    unfold u128FromStrRadix16 hexSpecParse
    dsimp only
    by_cases hb43 : b = 43
    · subst hb43
      rw [if_pos rfl]
      have hnothex : isHexByte 43 = false := rfl
      rw [if_neg ?hcne]
      case hcne =>
        intro hcontra
        have := hcontra.2
        simp only [List.all_cons, hnothex, Bool.false_and] at this
        cases this
      cases rest with
      | nil =>
        rw [if_neg ?hne1]
        case hne1 =>
          intro hcontra
          exact hcontra.2.1 rfl
      | cons c cs =>
        dsimp only
        rw [hparse (c :: cs) (by simp only [List.length_cons] at hlen ⊢; omega)]
        by_cases hall : (c :: cs).all isHexByte = true
        · rw [if_pos hall, if_pos ⟨rfl, by simp, hall⟩]
        · rw [if_neg hall, if_neg ?hne2]
          case hne2 =>
            intro hcontra
            exact hall hcontra.2.2
    · rw [if_neg hb43]
      rw [hparse (b :: rest) hlen]
      by_cases hall : ((b :: rest).all isHexByte) = true
      · rw [if_pos hall, if_pos ⟨by simp, hall⟩]
      · rw [if_neg hall, if_neg ?hne3, if_neg ?hne4]
        case hne3 =>
          intro hcontra
          exact hall hcontra.2
        case hne4 =>
          intro hcontra
          exact hb43 hcontra.1

theorem prefix_no_db {members : List (String × List Nat)} {i : Nat} {bytes : List Nat}
    (hc : (members.map Prod.fst).count DB_FILE ≤ 1)
    (hg : members.get? i = some (DB_FILE, bytes)) :
    (members.take i).any (fun m => decide (m.1 = DB_FILE)) = false := by
  by_contra hany
  have hany2 : (members.take i).any (fun m => decide (m.1 = DB_FILE)) = true := by
    revert hany
    cases (members.take i).any (fun m => decide (m.1 = DB_FILE)) <;> simp
  obtain ⟨m, hm, hp⟩ := List.any_eq_true.mp hany2
  have hm1 : m.1 = DB_FILE := of_decide_eq_true hp
  have hmem1 : DB_FILE ∈ (members.take i).map Prod.fst := by
    rw [← hm1]
    exact List.mem_map_of_mem _ hm
  have hmem2 : DB_FILE ∈ (members.drop i).map Prod.fst := by
    have hdi : (members.drop i).get? 0 = some (DB_FILE, bytes) := by
      rw [List.get?_drop]
      simpa using hg
    have : (DB_FILE, bytes) ∈ members.drop i := by
      have := List.get?_mem hdi
      exact this
    exact List.mem_map_of_mem _ this
  have hsplit : members.map Prod.fst = (members.take i).map Prod.fst ++ (members.drop i).map Prod.fst := by
    rw [← List.map_append, List.take_append_drop]
  have hcount : (members.map Prod.fst).count DB_FILE =
      ((members.take i).map Prod.fst).count DB_FILE + ((members.drop i).map Prod.fst).count DB_FILE := by
    rw [hsplit, List.count_append]
  have h1 : 0 < ((members.take i).map Prod.fst).count DB_FILE := List.count_pos_iff.mpr hmem1
  have h2 : 0 < ((members.drop i).map Prod.fst).count DB_FILE := List.count_pos_iff.mpr hmem2
  omega

/-- C1: Backend A populate resolves each track's played state from the
relational flag R (the played column of the track row, absent when the
lookup returned no usable row) and the history-blob flag H (flags equal
to 65) exactly per the reconciliation table of claimResolvedPlayed:
both present and equal accepts that value, both present and unequal
logs a mismatch (second component true) and resolves to false, exactly
one present accepts that source's value, neither present defaults to
false; and the final playing status is Played when resolved played,
else Playing when the assigned progress is positive, else Unplayed. -/
theorem C1_reconciliation_table (row : Except SqlErr (Bool × Int)) (histFlags : Option Nat)
    (t : Track) :
    (populateTrack row histFlags t).1.playing_status
        = claimStatus
            (claimResolvedPlayed (row.toOption.map Prod.fst) (histFlags.map (fun f => f == 65)))
            (populateTrack row histFlags t).1.progress
    ∧ ((populateTrack row histFlags t).2 = true ↔
        ∃ r h : Bool, row.toOption.map Prod.fst = some r
          ∧ histFlags.map (fun f => f == 65) = some h ∧ r ≠ h) := by
  cases row with
  | error e =>
    cases histFlags with
    | none =>
      constructor
      · rfl
      · simp [populateTrack, Except.toOption]
    | some f =>
      constructor
      · by_cases hf : f = 65
        · subst hf
          rfl
        · simp only [populateTrack, claimResolvedPlayed, claimStatus, optionXor, Except.toOption,
            Option.map_some', Option.map_none']
          rfl
      · simp [populateTrack, Except.toOption]
  | ok r =>
    obtain ⟨pl, pt⟩ := r
    cases histFlags with
    | none =>
      constructor
      · cases pl <;> by_cases hpt : pt ≥ 0 <;>
          simp [populateTrack, claimResolvedPlayed, claimStatus, optionXor, Except.toOption, hpt]
      · simp [populateTrack, Except.toOption]
    | some f =>
      constructor
      · by_cases hf : (f == 65) = pl <;> cases pl <;> by_cases hpt : pt ≥ 0 <;>
          simp_all [populateTrack, claimResolvedPlayed, claimStatus, optionXor, Except.toOption]
      · by_cases hf : (f == 65) = pl <;> cases pl <;>
          simp_all [populateTrack, claimResolvedPlayed, claimStatus, optionXor, Except.toOption]

/-- C2: in Backend A save, a history entry is appended for a track iff
the track is Played or present in the relational store, with flag 65
when played and 64 when present but unplayed (second conjunct); and the
rewritten history blob is exactly the concatenation of the per-feed
serialisations of podcasts with a non-empty entry list, so a feed whose
entry list is empty contributes nothing to the blob (first conjunct;
the blob is built from scratch, never from the input blob, so prior
entries for such a feed are dropped). -/
theorem C2_history_save_policy (env : BPEnv) (fid : Podcast → Nat) (podcasts : List Podcast)
    (hupd : ∀ id tid pl pr, env.updateRes id tid pl pr = Except.ok ())
    (hres : ∀ p ∈ podcasts, ∃ s u, env.feeds p.url = Except.ok (s, u)
      ∧ uuidFromStr s = Except.ok (fid p)) :
    bpBuildHist env podcasts = Except.ok ((podcasts.filterMap (fun p =>
      if qualifyingEntries env (fid p) p.tracks = [] then none
      else some (writeFeedHistory (fid p) (qualifyingEntries env (fid p) p.tracks)))).flatten)
    ∧ ∀ (id : Nat) (tracks : List Track) (tid flag : Nat),
        ((tid, flag) ∈ qualifyingEntries env id tracks ↔
          ∃ t ∈ tracks, tid = guidToTrackId t.guid
            ∧ (t.playing_status = PlayingStatus.Played ∨ (env.trackRow id tid).isOk = true)
            ∧ flag = (if t.playing_status = PlayingStatus.Played then 65 else 64)) := by
  constructor
  · exact bpBuildHist_eq env fid hupd podcasts hres
  · intro id tracks tid flag
    unfold qualifyingEntries
    rw [List.mem_filterMap]
    constructor
    · rintro ⟨t, ht, hf⟩
      dsimp only at hf
      by_cases hc : ((t.playing_status == PlayingStatus.Played)
          || (env.trackRow id (guidToTrackId t.guid)).isOk) = true
      · rw [if_pos hc] at hf
        injection hf with hf1
        have htid : guidToTrackId t.guid = tid := congrArg Prod.fst hf1
        have hflag : (if (t.playing_status == PlayingStatus.Played) = true then 65 else 64) = flag :=
          congrArg Prod.snd hf1
        refine ⟨t, ht, htid.symm, ?_, ?_⟩
        · rw [htid] at hc
          rcases Bool.or_eq_true_iff.mp hc with h | h
          · left
            exact beq_iff_eq.mp h
          · right
            exact h
        · rw [← hflag]
          by_cases hp : t.playing_status = PlayingStatus.Played
          · rw [if_pos hp, if_pos (by rw [hp]; rfl)]
          · rw [if_neg hp, if_neg (by simpa using hp)]
      · rw [if_neg hc] at hf
        cases hf
    · rintro ⟨t, ht, htid, hcond, hflag⟩
      refine ⟨t, ht, ?_⟩
      dsimp only
      rw [if_pos ?hcond2]
      case hcond2 =>
        rw [← htid]
        rcases hcond with h | h
        · rw [Bool.or_eq_true_iff]
          left
          exact beq_iff_eq.mpr h
        · rw [Bool.or_eq_true_iff]
          right
          exact h
      rw [← htid]
      congr 1
      rw [hflag]
      by_cases hp : t.playing_status = PlayingStatus.Played
      · rw [if_pos hp, if_pos (by rw [hp]; rfl)]
      · rw [if_neg hp, if_neg (by simpa using hp)]

/-- Witness for C2 at a concrete backend with one played track: the
hypotheses (updates succeed, the feed resolves to UUID 7) hold by
computation and the history blob equals the characterised value. -/
theorem C2_history_save_policy_witness :
    bpBuildHist
      { feeds := fun _ => Except.ok (uuidToString 7, 0),
        trackRow := fun _ _ => Except.error SqlErr.queryReturnedNoRows,
        updateRes := fun _ _ _ _ => Except.ok (),
        intoFile := Except.ok [],
        members := [] }
      [{ url := "u", title := "t",
         tracks := [{ guid := [103], url := "e", duration := none, progress := 0, playing_status := PlayingStatus.Played }] }]
    = Except.ok
      (([({ url := "u", title := "t",
            tracks := [{ guid := [103], url := "e", duration := none, progress := 0, playing_status := PlayingStatus.Played }] } : Podcast)].filterMap
        (fun p : Podcast =>
          if qualifyingEntries
              { feeds := fun _ => Except.ok (uuidToString 7, 0),
                trackRow := fun _ _ => Except.error SqlErr.queryReturnedNoRows,
                updateRes := fun _ _ _ _ => Except.ok (),
                intoFile := Except.ok [],
                members := [] } 7 p.tracks = [] then none
          else some (writeFeedHistory 7
            (qualifyingEntries
              { feeds := fun _ => Except.ok (uuidToString 7, 0),
                trackRow := fun _ _ => Except.error SqlErr.queryReturnedNoRows,
                updateRes := fun _ _ _ _ => Except.ok (),
                intoFile := Except.ok [],
                members := [] } 7 p.tracks)))).flatten) :=
  (C2_history_save_policy
    { feeds := fun _ => Except.ok (uuidToString 7, 0),
      trackRow := fun _ _ => Except.error SqlErr.queryReturnedNoRows,
      updateRes := fun _ _ _ _ => Except.ok (),
      intoFile := Except.ok [],
      members := [] }
    (fun _ => 7)
    [{ url := "u", title := "t",
       tracks := [{ guid := [103], url := "e", duration := none, progress := 0, playing_status := PlayingStatus.Played }] }]
    (fun _ _ _ _ => rfl)
    (fun p _ => ⟨uuidToString 7, 0, rfl, by show uuidFromStr (uuidToString 7) = Except.ok 7; decide⟩)).1

/-- C3 amended: in Backend A populate the per-track relational lookup
never aborts the call: the lookup result is reduced with ok(), so a
zero-rows result and any other relational error alike leave the track
with the defaults derived from the history blob alone (first
conjunct), and populate succeeds whenever feed resolution, the feedid
parse, the history member lookup and the history decode succeed,
regardless of per-track lookup errors (second conjunct). -/
theorem C3_per_track_errors_tolerated :
    (∀ (e : SqlErr) (histFlags : Option Nat) (t : Track),
      populateTrack (Except.error e) histFlags t
        = populateTrack (Except.error SqlErr.queryReturnedNoRows) histFlags t)
    ∧ ∀ (env : BPEnv) (p : Podcast) (idStr : List Nat) (u : Int) (id : Nat)
        (histBytes : List Nat) (history : List (Nat × Nat)),
        env.feeds p.url = Except.ok (idStr, u) →
        uuidFromStr idStr = Except.ok id →
        findMember env.members HISTORY_FILE = Except.ok histBytes →
        getFeedHistory id histBytes = Except.ok history →
        (bpPopulate env p).isOk = true := by
  constructor
  · intro e histFlags t
    rfl
  · intro env p idStr u id histBytes history h1 h2 h3 h4
    unfold bpPopulate
    rw [h1]
    dsimp only
    rw [h2]
    dsimp only
    rw [h3]
    dsimp only
    rw [h4]
    rfl

/-- Witness for C3 amended at a concrete backend whose per-track
lookup always fails with a non-zero-rows relational error: populate
still succeeds. -/
theorem C3_per_track_errors_tolerated_witness :
    (bpPopulate
      { feeds := fun _ => Except.ok (uuidToString 0, 0),
        trackRow := fun _ _ => Except.error SqlErr.other,
        updateRes := fun _ _ _ _ => Except.ok (),
        intoFile := Except.ok [],
        members := [(HISTORY_FILE, [])] }
      { url := "u", title := "t", tracks := [{ guid := [], url := "e" }] }).isOk = true :=
  C3_per_track_errors_tolerated.2
    { feeds := fun _ => Except.ok (uuidToString 0, 0),
      trackRow := fun _ _ => Except.error SqlErr.other,
      updateRes := fun _ _ _ _ => Except.ok (),
      intoFile := Except.ok [],
      members := [(HISTORY_FILE, [])] }
    { url := "u", title := "t", tracks := [{ guid := [], url := "e" }] }
    (uuidToString 0) 0 0 [] []
    rfl (by decide) rfl (getFeedHistory_of_none (show nextToken [] = (none, []) from rfl))

/-- Counterexample for C3 as stated: the per-track lookup returns a
relational error that is not the zero-rows marker, yet populate
returns ok with the track left at its defaults instead of propagating
the error. -/
theorem C3_counterexample :
    bpPopulate
      { feeds := fun _ => Except.ok (uuidToString 0, 0),
        trackRow := fun _ _ => Except.error SqlErr.other,
        updateRes := fun _ _ _ _ => Except.ok (),
        intoFile := Except.ok [],
        members := [(HISTORY_FILE, [])] }
      { url := "u", title := "t", tracks := [{ guid := [], url := "e" }] }
    = Except.ok
        { url := "u", title := "t",
          tracks := [{ guid := [], url := "e", duration := none, progress := 0, playing_status := PlayingStatus.Unplayed }] }
    ∧ ({ feeds := fun _ => Except.ok (uuidToString 0, 0),
         trackRow := fun _ _ => Except.error SqlErr.other,
         updateRes := fun _ _ _ _ => Except.ok (),
         intoFile := Except.ok [],
         members := [(HISTORY_FILE, [])] } : BPEnv).trackRow 0 0 = Except.error SqlErr.other := by
  constructor
  · unfold bpPopulate
    dsimp only
    rw [show uuidFromStr (uuidToString 0) = Except.ok 0 from by decide]
    dsimp only
    rw [show findMember [(HISTORY_FILE, [])] HISTORY_FILE = Except.ok [] from rfl]
    dsimp only
    rw [getFeedHistory_of_none (show nextToken [] = (none, []) from rfl)]
    rfl
  · rfl

/-- C4 counterexample: a 36-byte string with hyphens at the four
offsets whose first byte is a plus sign (not a hex digit) decodes
successfully to 0 because Rust radix parsing accepts an optional
leading plus sign, contradicting the claim that a non-hex byte among
the 32 stripped characters always fails with InvalidUUID. -/
theorem C4_counterexample :
    uuidFromStr (43 :: (List.replicate 7 48 ++ (45 :: (List.replicate 4 48 ++
        (45 :: (List.replicate 4 48 ++ (45 :: (List.replicate 4 48 ++
          (45 :: List.replicate 12 48))))))))) = Except.ok 0
    ∧ toDigit 16 43 = none := by
  constructor
  · decide
  · rfl

/-- C4 amended: a string whose byte length is not 36 is rejected with
InvalidUUID before any slicing; on a 36-byte string whose eight checked
byte positions are char boundaries the decode never panics, fails with
InvalidUUID exactly when the hyphen shape fails, and under the shape
parses the 32 stripped bytes per Rust radix-16 u128 parsing
(hexSpecParse: all hex digits, or a leading plus sign before hex
digits), with a parse failure passed through as the integer-parse
error, not InvalidUUID; a 36-byte string whose first checked slice has
a non-boundary endpoint (a multi-byte character spanning offset 8 or
9) panics instead of returning InvalidUUID; and every all-ASCII
36-byte string — in particular anything the program itself writes —
satisfies the boundary condition. -/
theorem C4_uuid_decode_characterization (s : List Nat) :
    (s.length ≠ 36 → uuidFromStr s = Except.error Err.invalidUUID)
    ∧ (uuidSliceSafe s → ¬ uuidShape s → uuidFromStr s = Except.error Err.invalidUUID)
    ∧ (uuidSliceSafe s → uuidShape s → uuidFromStr s =
        (match hexSpecParse (stripUuidHyphens s) with
         | some n => Except.ok n
         | none => Except.error Err.parseIntError))
    ∧ (s.length = 36 → ¬ (isCharBoundary s 8 = true ∧ isCharBoundary s 9 = true) →
        uuidFromStr s = Except.error Err.panicked)
    ∧ ((∀ b ∈ s, b < 128) → s.length = 36 → uuidSliceSafe s) := by
  refine ⟨?_, ?_, ?_, ?_, ?_⟩
  · intro hlen
    unfold uuidFromStr
    rw [if_pos hlen]
  · intro hsafe hns
    obtain ⟨hb8, hb9, hb13, hb14, hb18, hb19, hb23, hb24⟩ := hsafe
    by_cases hl : s.length = 36
    · unfold uuidFromStr
      rw [if_neg (not_not_intro hl)]
      rw [if_neg (not_not_intro ⟨hb8, hb9⟩)]
      by_cases hc8 : (s.drop 8).take 1 = [45]
      · rw [if_neg (not_not_intro hc8)]
        rw [if_neg (not_not_intro ⟨hb13, hb14⟩)]
        by_cases hc13 : (s.drop 13).take 1 = [45]
        · rw [if_neg (not_not_intro hc13)]
          rw [if_neg (not_not_intro ⟨hb18, hb19⟩)]
          by_cases hc18 : (s.drop 18).take 1 = [45]
          · rw [if_neg (not_not_intro hc18)]
            rw [if_neg (not_not_intro ⟨hb23, hb24⟩)]
            by_cases hc23 : (s.drop 23).take 1 = [45]
            · exact absurd ((uuidShape_iff_code s).mpr ⟨hl, hc8, hc13, hc18, hc23⟩) hns
            · rw [if_pos hc23]
          · rw [if_pos hc18]
        · rw [if_pos hc13]
      · rw [if_pos hc8]
    · unfold uuidFromStr
      rw [if_pos hl]
  · intro hsafe hs
    obtain ⟨hb8, hb9, hb13, hb14, hb18, hb19, hb23, hb24⟩ := hsafe
    have hcode := (uuidShape_iff_code s).mp hs
    unfold uuidFromStr
    rw [if_neg (not_not_intro hcode.1)]
    rw [if_neg (not_not_intro ⟨hb8, hb9⟩)]
    rw [if_neg (not_not_intro hcode.2.1)]
    rw [if_neg (not_not_intro ⟨hb13, hb14⟩)]
    rw [if_neg (not_not_intro hcode.2.2.1)]
    rw [if_neg (not_not_intro ⟨hb18, hb19⟩)]
    rw [if_neg (not_not_intro hcode.2.2.2.1)]
    rw [if_neg (not_not_intro ⟨hb23, hb24⟩)]
    rw [if_neg (not_not_intro hcode.2.2.2.2)]
    have hlen : (stripUuidHyphens s).length ≤ 32 := by
      unfold stripUuidHyphens
      simp only [List.length_append, List.length_take, List.length_drop]
      omega
    have := parse16_eq_hexSpec (stripUuidHyphens s) hlen
    unfold stripUuidHyphens at this
    rw [this]
    rfl
  · intro hl hpanic
    unfold uuidFromStr
    rw [if_neg (not_not_intro hl)]
    rw [if_pos hpanic]
  · intro ha hl
    refine ⟨?_, ?_, ?_, ?_, ?_, ?_, ?_, ?_⟩ <;>
      exact isCharBoundary_of_ascii ha (by omega)

/-- Witness for C4 amended: a one-byte string is rejected with
InvalidUUID; a 36-byte all-digit string without hyphens is slice-safe
and rejected with InvalidUUID; the all-zero well-formed string decodes
per the hex specification; and a 36-byte string carrying a two-byte
UTF-8 character across offsets 7 and 8 panics. -/
theorem C4_uuid_decode_characterization_witness :
    uuidFromStr [48] = Except.error Err.invalidUUID
    ∧ uuidFromStr (List.replicate 36 48) = Except.error Err.invalidUUID
    ∧ uuidFromStr (uuidToString 0) =
        (match hexSpecParse (stripUuidHyphens (uuidToString 0)) with
         | some n => Except.ok n
         | none => Except.error Err.parseIntError)
    ∧ uuidFromStr (List.replicate 7 97 ++ (195 :: (169 :: List.replicate 27 97)))
        = Except.error Err.panicked
    ∧ uuidSliceSafe (uuidToString 0) :=
  ⟨(C4_uuid_decode_characterization [48]).1 (by decide),
    (C4_uuid_decode_characterization (List.replicate 36 48)).2.1 (by decide) (by decide),
    (C4_uuid_decode_characterization (uuidToString 0)).2.2.1 (by decide) (by decide),
    (C4_uuid_decode_characterization
      (List.replicate 7 97 ++ (195 :: (169 :: List.replicate 27 97)))).2.2.2.1
      (by decide) (by decide),
    (C4_uuid_decode_characterization (uuidToString 0)).2.2.2.2 (by decide) (by decide)⟩

/-- C5 amended: for every feed id and every non-empty list of u32
track-key and flag entries with fewer than two to the thirty-two
entries (the header count is stored as a u32), writing the feed with
write_feed_history and decoding the produced byte stream with
get_feed_history for the same feed yields exactly the same entry list,
hence the same mapping from track key to flags. -/
theorem C5_history_roundtrip (id : Nat) (entries : List (Nat × Nat))
    (hid : id < 2 ^ 128) (hne : entries ≠ []) (hlen : entries.length < 2 ^ 32)
    (hb : ∀ p ∈ entries, p.1 < 2 ^ 32 ∧ p.2 < 2 ^ 32) :
    ∃ out, getFeedHistory id (writeFeedHistory id entries) = Except.ok out
      ∧ ∀ k, lookupLast out k = lookupLast entries k := by
  refine ⟨entries, getFeedHistory_writeFeedHistory hid entries hlen hb, ?_⟩
  intro k
  rfl

/-- Witness for C5 amended at feed id 0 with one entry. -/
theorem C5_history_roundtrip_witness :
    ∃ out, getFeedHistory 0 (writeFeedHistory 0 [(1, 65)]) = Except.ok out
      ∧ ∀ k, lookupLast out k = lookupLast [(1, 65)] k :=
  C5_history_roundtrip 0 [(1, 65)] (by norm_num) (by decide) (by decide) (by decide)

/-- C5 counterexample: with exactly two to the thirty-two entries the
header count wraps to zero in the u32 cast, so decoding returns the
empty mapping while the input mapping sends key 0 to 0: the round trip
fails for this non-empty entry list, refuting the claim as stated for
every non-empty list. -/
theorem C5_counterexample :
    getFeedHistory 0 (writeFeedHistory 0 (List.replicate (2 ^ 32) (0, 0))) = Except.ok []
    ∧ lookupLast (List.replicate (2 ^ 32) (0, 0)) 0 = some 0
    ∧ lookupLast [] 0 = none := by
  refine ⟨?_, ?_, rfl⟩
  · have hsv : utf8Valid (uuidToString 0) = true := by decide
    have hslen : (uuidToString 0).length < 2 ^ 16 := by decide
    have hnext := nextToken_writeHistoryToken (uuidToString 0) ((List.replicate (2 ^ 32) ((0 : Nat), (0 : Nat))).length)
      (((List.replicate (2 ^ 32) ((0 : Nat), (0 : Nat))).map
        (fun p => writeHistoryToken (i32ToString (u32AsI32 p.1)) p.2)).flatten)
      hslen hsv
    have hmod : (List.replicate (2 ^ 32) ((0 : Nat), (0 : Nat))).length % 2 ^ 32 = 0 := by
      rw [List.length_replicate]
      omega
    rw [hmod] at hnext
    have hw : writeFeedHistory 0 (List.replicate (2 ^ 32) (0, 0))
        = writeHistoryToken (uuidToString 0) (List.replicate (2 ^ 32) ((0 : Nat), (0 : Nat))).length ++
          ((List.replicate (2 ^ 32) ((0 : Nat), (0 : Nat))).map
            (fun p => writeHistoryToken (i32ToString (u32AsI32 p.1)) p.2)).flatten := rfl
    rw [hw]
    rw [getFeedHistory_of_some hnext]
    rw [show uuidFromStr (uuidToString 0) = Except.ok 0 from by decide]
    dsimp only
    rw [if_pos rfl]
    rfl
  · have hrep : List.replicate (2 ^ 32) ((0 : Nat), (0 : Nat))
        = List.replicate (2 ^ 32 - 1) ((0 : Nat), (0 : Nat)) ++ [(0, 0)] := by
      rw [← List.replicate_succ']
      norm_num
    rw [hrep]
    unfold lookupLast
    rw [List.foldl_append]
    rfl

/-- C6 amended: the byte-level linear scan of get_feed_history is
exactly the specification scan findFeedHistorySpec over the sequence
of iterator read results (tokenSeq): a failed header read ends the
scan with an empty mapping; a header whose id fails UUID decoding
aborts with that outcome; a matching header collects up to its
declared count of following tokens, a failed read or the end of the
stream merely stopping the collection early, and a track key that
fails decimal i32 parsing aborting with the integer-parse error; a
non-matching header skips up to its declared count of tokens, a failed
read breaking the skip early, after which the scan resumes reading at
the position the failed read left — after an invalid-UTF-8 string that
position is just past the string with the data word unconsumed, so the
resumed scan can read misaligned data. -/
theorem C6_feed_scan_refines_spec :
    (∀ (feed : Nat) (bytes : List Nat),
      getFeedHistory feed bytes = findFeedHistorySpec feed (tokenSeq bytes))
    ∧ ∀ feed : Nat, getFeedHistory feed [] = Except.ok [] := by
  constructor
  · exact getFeedHistory_eq_spec
  · intro feed
    exact getFeedHistory_of_none rfl

/-- C6 counterexample: a stream holding a single header token whose
string is not a UUID makes get_feed_history return the InvalidUUID
error, although no header matches the requested feed, refuting the
claim that a never-matching scan always returns an empty mapping
rather than an error. -/
theorem C6_counterexample :
    getFeedHistory 0 [0, 3, 98, 97, 100, 0, 0, 0, 0] = Except.error Err.invalidUUID := by
  rw [getFeedHistory_of_some
    (show nextToken [0, 3, 98, 97, 100, 0, 0, 0, 0] = (some ([98, 97, 100], 0), []) from by decide)]
  rfl

/-- C7: the stored playing_status integer decodes exactly as 0 to
Unplayed, 1 to Playing and 2 to Played, with every other integer
giving the InvalidPlayingStatus error (first conjunct); and for a
podcast whose row resolves and whose episode lookups raise no other
relational error, populate fails with InvalidPlayingStatus exactly
when some track has a stored row whose status integer is outside
0, 1, 2 — the error is fatal for the whole call (second conjunct). -/
theorem C7_status_decode :
    (pcDecodeStatus 0 = Except.ok PlayingStatus.Unplayed
      ∧ pcDecodeStatus 1 = Except.ok PlayingStatus.Playing
      ∧ pcDecodeStatus 2 = Except.ok PlayingStatus.Played
      ∧ ∀ n : Int, n ≠ 0 → n ≠ 1 → n ≠ 2 →
          pcDecodeStatus n = Except.error Err.invalidPlayingStatus)
    ∧ ∀ (env : PCEnv) (p : Podcast) (uuidStr : List Nat) (id : Nat),
        env.podcastRow p.title = Except.ok uuidStr →
        uuidFromStr uuidStr = Except.ok id →
        (∀ t ∈ p.tracks, env.episodeRow id t.url ≠ Except.error SqlErr.other) →
        (pcPopulate env p = Except.error Err.invalidPlayingStatus ↔
          ∃ t ∈ p.tracks, ∃ st pu : Int, env.episodeRow id t.url = Except.ok (st, pu)
            ∧ ¬(st = 0 ∨ st = 1 ∨ st = 2)) := by
  constructor
  · refine ⟨rfl, rfl, rfl, ?_⟩
    intro n h0 h1 h2
    unfold pcDecodeStatus
    rw [if_neg h0, if_neg h1, if_neg h2]
  · intro env p uuidStr id h1 h2 hok
    have hred : pcPopulate env p =
        (match pcPopulateTracks env id p.tracks with
         | Except.error e => Except.error e
         | Except.ok tracks => Except.ok { p with tracks := tracks }) := by
      unfold pcPopulate
      rw [h1]
      dsimp only
      rw [h2]
    constructor
    · intro herr
      rw [hred] at herr
      cases h3 : pcPopulateTracks env id p.tracks with
      | ok l =>
        rw [h3] at herr
        cases herr
      | error e =>
        rw [h3] at herr
        injection herr with h4
        subst h4
        exact pcPopulateTracks_error_bad env id p.tracks Err.invalidPlayingStatus hok h3
    · rintro ⟨t, ht, st, pu, hrow, hbad⟩
      rw [hred]
      cases h3 : pcPopulateTracks env id p.tracks with
      | ok l =>
        exact absurd h3 (pcPopulateTracks_bad_not_ok env id p.tracks t ht st pu hrow hbad l)
      | error e =>
        rcases pcPopulateTracks_err_char env id p.tracks hok with ⟨l, h4⟩ | h4
        · rw [h3] at h4
          cases h4
        · rw [h3] at h4
          injection h4 with h5
          subst h5
          rfl

/-- Witness for C7 at a concrete backend with one track whose stored
status integer is 5: populate fails with InvalidPlayingStatus, and a
direct decode of 5 fails the same way. -/
theorem C7_status_decode_witness :
    pcDecodeStatus 5 = Except.error Err.invalidPlayingStatus
    ∧ (pcPopulate
        { podcastRow := fun _ => Except.ok (uuidToString 3),
          episodeRow := fun _ _ => Except.ok (5, 11),
          updateRes := fun _ _ _ _ _ => Except.ok (),
          intoFile := Except.ok [] }
        { url := "u", title := "t", tracks := [{ guid := [], url := "e" }] }
        = Except.error Err.invalidPlayingStatus ↔
      ∃ t ∈ ({ url := "u", title := "t", tracks := [{ guid := [], url := "e" }] } : Podcast).tracks,
        ∃ st pu : Int,
          ({ podcastRow := fun _ => Except.ok (uuidToString 3),
             episodeRow := fun _ _ => Except.ok (5, 11),
             updateRes := fun _ _ _ _ _ => Except.ok (),
             intoFile := Except.ok [] } : PCEnv).episodeRow 3 t.url = Except.ok (st, pu)
            ∧ ¬(st = 0 ∨ st = 1 ∨ st = 2)) :=
  ⟨C7_status_decode.1.2.2.2 5 (by decide) (by decide) (by decide),
    C7_status_decode.2
      { podcastRow := fun _ => Except.ok (uuidToString 3),
        episodeRow := fun _ _ => Except.ok (5, 11),
        updateRes := fun _ _ _ _ _ => Except.ok (),
        intoFile := Except.ok [] }
      { url := "u", title := "t", tracks := [{ guid := [], url := "e" }] }
      (uuidToString 3) 3 rfl (by decide)
      (by intro t ht; exact fun hc => by cases hc)⟩

/-- C8: when the history-building phase and the store finalisation
succeed, Backend A save iterates the original archive members in
original index order, emitting one output member per input member with
the same name; every member whose name is neither the history-blob
name nor the store-blob name is copied through byte for byte
unchanged, the history member receives the fresh history bytes, and
the store member (of which a well-formed archive holds at most one)
receives the fresh store bytes. -/
theorem C8_archive_passthrough (env : BPEnv) (podcasts : List Podcast) (hist db : List Nat)
    (h1 : bpBuildHist env podcasts = Except.ok hist) (h2 : env.intoFile = Except.ok db)
    (hdb : (env.members.map Prod.fst).count DB_FILE ≤ 1) :
    (bpSave env podcasts none).2 = none
    ∧ (bpSave env podcasts none).1.length = env.members.length
    ∧ ∀ (i : Nat) (name : String) (bytes : List Nat),
        env.members.get? i = some (name, bytes) →
        (bpSave env podcasts none).1.get? i = some (name,
          if name = HISTORY_FILE then hist else if name = DB_FILE then db else bytes) := by
  have hred : bpSave env podcasts none = copyMembers hist db env.members false none := by
    unfold bpSave
    rw [h1]
    dsimp only
    rw [h2]
  obtain ⟨hc1, hc2, hc3⟩ := copyMembers_none_spec hist db env.members false
  rw [hred]
  refine ⟨hc1, hc2, ?_⟩
  intro i name bytes hg
  have := hc3 i name bytes hg
  rw [this]
  unfold rewriteContentSpec
  by_cases hh : name = HISTORY_FILE
  · rw [if_pos hh, if_pos hh]
  · rw [if_neg hh, if_neg hh]
    by_cases hd : name = DB_FILE
    · rw [if_pos hd, if_pos hd]
      subst hd
      rw [prefix_no_db hdb hg]
      rfl
    · rw [if_neg hd, if_neg hd]

/-- Witness for C8 at a concrete three-member archive containing the
history blob, the store blob and an unrelated cover image: no error,
the cover bytes pass through unchanged and the two well-known members
receive the fresh bytes. -/
theorem C8_archive_passthrough_witness :
    ((bpSave
      { feeds := fun _ => Except.error SqlErr.other,
        trackRow := fun _ _ => Except.error SqlErr.other,
        updateRes := fun _ _ _ _ => Except.ok (),
        intoFile := Except.ok [7],
        members := [(HISTORY_FILE, [1]), (DB_FILE, [2]), ("cover.png", [3])] } [] none).2 = none)
    ∧ ((bpSave
      { feeds := fun _ => Except.error SqlErr.other,
        trackRow := fun _ _ => Except.error SqlErr.other,
        updateRes := fun _ _ _ _ => Except.ok (),
        intoFile := Except.ok [7],
        members := [(HISTORY_FILE, [1]), (DB_FILE, [2]), ("cover.png", [3])] } [] none).1.get? 2
      = some ("cover.png", [3]))
    ∧ ((bpSave
      { feeds := fun _ => Except.error SqlErr.other,
        trackRow := fun _ _ => Except.error SqlErr.other,
        updateRes := fun _ _ _ _ => Except.ok (),
        intoFile := Except.ok [7],
        members := [(HISTORY_FILE, [1]), (DB_FILE, [2]), ("cover.png", [3])] } [] none).1.get? 1
      = some (DB_FILE, [7]))
    ∧ ((bpSave
      { feeds := fun _ => Except.error SqlErr.other,
        trackRow := fun _ _ => Except.error SqlErr.other,
        updateRes := fun _ _ _ _ => Except.ok (),
        intoFile := Except.ok [7],
        members := [(HISTORY_FILE, [1]), (DB_FILE, [2]), ("cover.png", [3])] } [] none).1.get? 0
      = some (HISTORY_FILE, [])) := by
  have h := C8_archive_passthrough
    { feeds := fun _ => Except.error SqlErr.other,
      trackRow := fun _ _ => Except.error SqlErr.other,
      updateRes := fun _ _ _ _ => Except.ok (),
      intoFile := Except.ok [7],
      members := [(HISTORY_FILE, [1]), (DB_FILE, [2]), ("cover.png", [3])] }
    [] [] [7] rfl rfl (by decide)
  refine ⟨h.1, ?_, ?_, ?_⟩
  · have h2 := h.2.2 2 "cover.png" [3] (by decide)
    simpa using h2
  · have h2 := h.2.2 1 DB_FILE [2] (by decide)
    simpa using h2
  · have h2 := h.2.2 0 HISTORY_FILE [1] (by decide)
    simpa using h2

/-- C9 counterexample: a sink that accepts one member write and then
fails makes Backend A save return an I/O error after the first member
has already reached the sink, so output is not all-or-nothing:
partial output is emitted on failure, refuting the claim as stated. -/
theorem C9_counterexample :
    bpSave
      { feeds := fun _ => Except.error SqlErr.other,
        trackRow := fun _ _ => Except.error SqlErr.other,
        updateRes := fun _ _ _ _ => Except.ok (),
        intoFile := Except.ok [9],
        members := [(DB_FILE, [1]), ("a", [2])] } [] (some 1)
      = ([(DB_FILE, [9])], some Err.ioError)
    ∧ ([(DB_FILE, [9])] : List (String × List Nat)) ≠ [] := by
  constructor
  · decide
  · decide

/-- C9 amended: with a sink that never fails, every error either
backend's save returns is raised before any output reaches the sink
(Backend A fails only in the podcast loop, the feedid parse, the
per-feed history serialisation or the store finalisation, all of which
precede the archive rewrite; Backend B fails only in the update loop
or the store finalisation, which precede the byte copy); only a sink
write failure during the final copy phase can leave partial output. -/
theorem C9_no_partial_output_on_domain_failure :
    (∀ (env : BPEnv) (podcasts : List Podcast) (e : Err),
      (bpSave env podcasts none).2 = some e → (bpSave env podcasts none).1 = [])
    ∧ ∀ (env : PCEnv) (podcasts : List Podcast) (now : Int) (e : Err),
      (pcSave env podcasts now none).2 = some e → (pcSave env podcasts now none).1 = [] :=
  ⟨bpSave_no_partial_of_err, pcSave_no_partial_of_err⟩

/-- Witness for C9 amended: a backend whose store finalisation fails
emits nothing on either backend. -/
theorem C9_no_partial_output_on_domain_failure_witness :
    ((bpSave
      { feeds := fun _ => Except.error SqlErr.other,
        trackRow := fun _ _ => Except.error SqlErr.other,
        updateRes := fun _ _ _ _ => Except.ok (),
        intoFile := Except.error Err.closeError,
        members := [(DB_FILE, [1])] } [] none).1 = [])
    ∧ ((pcSave
      { podcastRow := fun _ => Except.ok (uuidToString 3),
        episodeRow := fun _ _ => Except.error SqlErr.queryReturnedNoRows,
        updateRes := fun _ _ _ _ _ => Except.ok (),
        intoFile := Except.error Err.closeError } [] 0 none).1 = []) :=
  ⟨C9_no_partial_output_on_domain_failure.1
      { feeds := fun _ => Except.error SqlErr.other,
        trackRow := fun _ _ => Except.error SqlErr.other,
        updateRes := fun _ _ _ _ => Except.ok (),
        intoFile := Except.error Err.closeError,
        members := [(DB_FILE, [1])] } [] Err.closeError (by decide),
    C9_no_partial_output_on_domain_failure.2
      { podcastRow := fun _ => Except.ok (uuidToString 3),
        episodeRow := fun _ _ => Except.error SqlErr.queryReturnedNoRows,
        updateRes := fun _ _ _ _ _ => Except.ok (),
        intoFile := Except.error Err.closeError } [] 0 Err.closeError (by decide)⟩

/-- C10: after every successful populate, every track's progress is
non-negative.  Backend A overwrites each track's progress with the
stored playedtime only when it is non-negative and with 0 otherwise;
Backend B clamps the stored offset below by zero and keeps the
caller's default (non-negative by hypothesis, 0 in the program) when
the row is missing. -/
theorem C10_progress_nonneg :
    (∀ (env : BPEnv) (p p2 : Podcast), bpPopulate env p = Except.ok p2 →
      ∀ t ∈ p2.tracks, 0 ≤ t.progress)
    ∧ ∀ (env : PCEnv) (p p2 : Podcast), (∀ t ∈ p.tracks, 0 ≤ t.progress) →
        pcPopulate env p = Except.ok p2 → ∀ t ∈ p2.tracks, 0 ≤ t.progress := by
  constructor
  · exact fun env p p2 h => bpPopulate_progress_nonneg env p p2 h
  · intro env p p2 hin h
    unfold pcPopulate at h
    cases h1 : env.podcastRow p.title with
    | error e => rw [h1] at h; cases h
    | ok uuidStr =>
      rw [h1] at h
      dsimp only at h
      cases h2 : uuidFromStr uuidStr with
      | error e => rw [h2] at h; cases h
      | ok id =>
        rw [h2] at h
        dsimp only at h
        cases h3 : pcPopulateTracks env id p.tracks with
        | error e => rw [h3] at h; cases h
        | ok l =>
          rw [h3] at h
          injection h with h4
          subst h4
          exact pcPopulateTracks_progress_nonneg env id p.tracks l hin h3

/-- Witness for C10: both backends populated at a concrete instance
leave non-negative progress on the produced tracks. -/
theorem C10_progress_nonneg_witness :
    (0 ≤ ({ guid := [], url := "e", duration := none, progress := 0, playing_status := PlayingStatus.Unplayed } : Track).progress)
    ∧ (0 ≤ ({ guid := [], url := "e", duration := none, progress := 11, playing_status := PlayingStatus.Playing } : Track).progress) := by
  constructor
  · refine C10_progress_nonneg.1
      { feeds := fun _ => Except.ok (uuidToString 0, 0),
        trackRow := fun _ _ => Except.error SqlErr.other,
        updateRes := fun _ _ _ _ => Except.ok (),
        intoFile := Except.ok [],
        members := [(HISTORY_FILE, [])] }
      { url := "u", title := "t", tracks := [{ guid := [], url := "e" }] }
      { url := "u", title := "t",
        tracks := [{ guid := [], url := "e", duration := none, progress := 0, playing_status := PlayingStatus.Unplayed }] }
      ?_ _ (by decide)
    unfold bpPopulate
    dsimp only
    rw [show uuidFromStr (uuidToString 0) = Except.ok 0 from by decide]
    dsimp only
    rw [show findMember [(HISTORY_FILE, [])] HISTORY_FILE = Except.ok [] from rfl]
    dsimp only
    rw [getFeedHistory_of_none (show nextToken [] = (none, []) from rfl)]
    rfl
  · exact C10_progress_nonneg.2
      { podcastRow := fun _ => Except.ok (uuidToString 3),
        episodeRow := fun _ _ => Except.ok (1, 11),
        updateRes := fun _ _ _ _ _ => Except.ok (),
        intoFile := Except.ok [] }
      { url := "u", title := "t", tracks := [{ guid := [], url := "e" }] }
      { url := "u", title := "t",
        tracks := [{ guid := [], url := "e", duration := none, progress := 11, playing_status := PlayingStatus.Playing }] }
      (by decide) (by decide) _ (by decide)
